import Mathlib

/-!
Verification of the Ghost repository core against its specification.

Each component that a claim touches is shallowly embedded below, translated
from the TypeScript/SQL sources:
  * ApproveGhost   — approve-ghost edge function (governance actions)
  * Ingest         — ingest-events edge function (validation + rate limiting)
  * Executor       — ghost-executor edge function (planner, execution loop,
                     self-healing)
  * Encoder        — extension privacy pipeline: IntentEncoder and the
                     DifferentialPrivacy vector perturbation
  * Fingerprint    — DifferentialPrivacy.generateSessionFingerprint
  * Pii            — PiiScrubber (detect / removeOverlaps / scrub)
  * Detector       — pattern-detector edge function (temporal intent
                     clustering)

JavaScript numbers are modelled as rationals (exact) and, where the source
applies transcendental functions (sqrt/log/cos in noise generation and
normalization), as reals.  External primitives (WebCrypto HMAC, the regex
engine, JSON.parse, the LLM port) are modelled as oracle parameters with the
shape the source gives them.
-/

set_option allowUnsafeReducibility true
attribute [local semireducible] Rat.add Rat.mul Rat.div Rat.inv Rat.neg Rat.sub
  Rat.blt Rat.ofScientific
set_option maxRecDepth 10000

namespace GhostSpec

/-- JavaScript Math.round: round half toward positive infinity. -/
def jsRound (x : ℚ) : ℤ := ⌊x + 1/2⌋

/-- Rounding to two decimals as the sources do: Math.round(x*100)/100. -/
def round2 (x : ℚ) : ℚ := (jsRound (x * 100) : ℚ) / 100

/-- The JavaScript string-or-default idiom (s || d) on an optional string:
null/undefined and the empty string are falsy. -/
def jsOrStr (o : Option String) (d : String) : String :=
  match o with
  | none => d
  | some s => if s = "" then d else s

/-- Deduplication keeping the first occurrence of each element, in order;
this is how a JavaScript Set built from an array iterates. -/
def firstDedup {α : Type} [DecidableEq α] (l : List α) : List α :=
  l.foldl (fun acc x => if x ∈ acc then acc else acc ++ [x]) []

end GhostSpec

/-! ## ApproveGhost: the approve-ghost edge function (002_governance.sql file,
handler section).  The handler validates the action, maps it to a new status
through statusMap, updates the ghosts row (incrementing version only for
approve) and, for approve, inserts one ghost_versions row with version + 1.
It never inspects the current status of the Ghost. -/

namespace ApproveGhost

structure Ghost where
  version : ℕ
  status : String
  is_active : Bool
  deriving DecidableEq, Repr

/-- Result of one handler invocation: the updated ghosts row and the list of
versions of the ghost_versions rows inserted by this call. -/
structure UpdateResult where
  ghost : Ghost
  insertedVersionRows : List ℕ
  deriving DecidableEq, Repr

/-- statusMap from the approve-ghost handler. -/
def statusMap (action : String) : Option String :=
  if action = "approve" then some "approved"
  else if action = "reject" then some "archived"
  else if action = "pause" then some "paused"
  else if action = "activate" then some "active"
  else if action = "archive" then some "archived"
  else none

/-- The approve-ghost handler body after the ghost has been fetched: returns
none on an invalid action (the 400 branch), otherwise the updated row and the
ghost_versions rows inserted.  Translated from the update / insert calls. -/
def handleAction (g : Ghost) (action : String) : Option UpdateResult :=
  match statusMap action with
  | none => none
  | some newStatus =>
    let isActive := action = "approve" || action = "activate"
    let newVersion := if action = "approve" then g.version + 1 else g.version
    some
      { ghost := { version := newVersion, status := newStatus, is_active := isActive }
        insertedVersionRows := if action = "approve" then [g.version + 1] else [] }

/-- C3 counterexample: the handler has no pending_approval guard.  Approving a
Ghost that is already approved (version 2) advances the version to 3 and
inserts another ghost_versions row, contradicting the claim that approve on a
non-pending Ghost does not advance the version. -/
theorem approve_not_idempotent_counterexample :
    handleAction ⟨2, "approved", true⟩ "approve" =
      some ⟨⟨3, "approved", true⟩, [3]⟩ ∧
    handleAction ⟨1, "pending_approval", false⟩ "approve" =
      some ⟨⟨2, "approved", true⟩, [2]⟩ := by
  constructor
  · rfl
  · rfl

/-- C3 amended: approve applied to a Ghost in any status (pending_approval or
not) sets status approved, is_active true, increments version by exactly 1 and
inserts exactly one ghost_versions row carrying the new version; consequently
repeated approve calls advance the version on every call, not at most once. -/
theorem approve_always_advances (g : Ghost) :
    handleAction g "approve" =
      some ⟨⟨g.version + 1, "approved", true⟩, [g.version + 1]⟩ ∧
    (∀ r₁ r₂ : UpdateResult,
      handleAction g "approve" = some r₁ →
      handleAction r₁.ghost "approve" = some r₂ →
      r₂.ghost.version = g.version + 2) := by
  refine ⟨rfl, ?_⟩
  intro r₁ r₂ h₁ h₂
  have h₁' : (some (⟨⟨g.version + 1, "approved", true⟩, [g.version + 1]⟩ : UpdateResult) :
      Option UpdateResult) = some r₁ := h₁
  cases Option.some.inj h₁'
  have h₂' : (some (⟨⟨g.version + 2, "approved", true⟩, [g.version + 2]⟩ : UpdateResult) :
      Option UpdateResult) = some r₂ := h₂
  cases Option.some.inj h₂'
  rfl

/-- Witness for approve_always_advances at a concrete paused Ghost: two
consecutive approvals advance the version from 5 to 7. -/
theorem approve_always_advances_witness :
    (⟨⟨7, "approved", true⟩, [7]⟩ : UpdateResult).ghost.version = 5 + 2 :=
  (approve_always_advances ⟨5, "paused", false⟩).2
    ⟨⟨6, "approved", true⟩, [6]⟩ ⟨⟨7, "approved", true⟩, [7]⟩ rfl rfl

end ApproveGhost

/-! ## Ingest: the ingest-events edge function.  Per-device fixed-window rate
limiting (checkRateLimit) and the request validation chain of serve.  The
limiter counts requests (one checkRateLimit call per batch), not events. -/

namespace Ingest

structure RateEntry where
  count : ℕ
  resetAt : ℕ
  deriving DecidableEq, Repr

/-- The in-memory rateLimits map, keyed by device id. -/
abbrev RState := List (String × RateEntry)

def lookupEntry (st : RState) (d : String) : Option RateEntry :=
  (st.find? (fun p => p.1 = d)).map Prod.snd

def setEntry (st : RState) (d : String) (e : RateEntry) : RState :=
  match st with
  | [] => [(d, e)]
  | (k, v) :: rest => if k = d then (k, e) :: rest else (k, v) :: setEntry rest d e

/-- checkRateLimit from ingest-events: reset the window when absent or
expired, reject at 1000, otherwise increment.  Returns the accept flag and
the updated map. -/
def checkRateLimit (st : RState) (deviceId : String) (now : ℕ) : Bool × RState :=
  match lookupEntry st deviceId with
  | none => (true, setEntry st deviceId ⟨1, now + 60000⟩)
  | some entry =>
    if entry.resetAt ≤ now then
      (true, setEntry st deviceId ⟨1, now + 60000⟩)
    else if 1000 ≤ entry.count then
      (false, st)
    else
      (true, setEntry st deviceId ⟨entry.count + 1, entry.resetAt⟩)

/-- One ingestion request as far as the validation chain reads it.  Events are
abbreviated to their orgId strings (only the count matters to the limiter). -/
structure IngReq where
  method : String
  events : Option (List String)
  deviceHeader : Option String
  deviceFingerprint : Option String
  time : ℕ
  deriving DecidableEq, Repr

structure IngResp where
  status : ℕ
  code : Option String
  retryAfterSec : Option ℕ
  acceptedCount : Option ℕ
  deriving DecidableEq, Repr

/-- Device key resolution: request header x-ghost-device, else the batch
deviceFingerprint, else "unknown" (JavaScript || chain, empty string falsy). -/
def deviceKey (req : IngReq) : String :=
  GhostSpec.jsOrStr req.deviceHeader (GhostSpec.jsOrStr req.deviceFingerprint "unknown")

/-- The serve handler of ingest-events (success path reaches the insert, which
is modelled as always succeeding; the claim concerns the branches before). -/
def serveIngest (st : RState) (req : IngReq) : IngResp × RState :=
  if req.method = "OPTIONS" then (⟨200, none, none, none⟩, st)
  else if req.method ≠ "POST" then (⟨405, some "METHOD_NOT_ALLOWED", none, none⟩, st)
  else
    match req.events with
    | none => (⟨400, some "INVALID_BATCH", none, none⟩, st)
    | some evs =>
      if 100 < evs.length then (⟨400, some "BATCH_TOO_LARGE", none, none⟩, st)
      else
        match checkRateLimit st (deviceKey req) req.time with
        | (false, st') => (⟨429, some "RATE_LIMIT_EXCEEDED", some 60, none⟩, st')
        | (true, st') => (⟨202, none, none, some evs.length⟩, st')

/-- Folding a request trace through the service. -/
def runIngest (st : RState) : List IngReq → List IngResp × RState
  | [] => ([], st)
  | r :: rest =>
    let (resp, st') := serveIngest st r
    let (resps, stF) := runIngest st' rest
    (resp :: resps, stF)

def batchReq : IngReq :=
  { method := "POST", events := some (List.replicate 100 "org1"),
    deviceHeader := some "devA", deviceFingerprint := none, time := 0 }

/-- C2 counterexample: eleven batches of 100 events from device devA, all at
the same instant, are all accepted (202): 1100 events are accepted within a
single minute, so the service does not cap events at 1000 per rolling minute
— checkRateLimit counts one unit per request, not per event. -/
theorem rate_limit_counts_requests_counterexample :
    ((runIngest [] (List.replicate 11 batchReq)).1.map (fun r => r.status)) =
      List.replicate 11 202 ∧
    ((runIngest [] (List.replicate 11 batchReq)).1.map
        (fun r => r.acceptedCount.getD 0)).sum = 1100 := by
  constructor
  · rfl
  · rfl

/-- Invariant carried through a single-device trace whose times stay inside
the first window. -/
def windowInv (d : String) (t0 : ℕ) (st : RState) (accepted : ℕ) : Prop :=
  (lookupEntry st d = none ∧ accepted = 0) ∨
  (∃ e, lookupEntry st d = some e ∧ accepted ≤ e.count ∧ e.count ≤ 1000 ∧
    t0 + 60000 ≤ e.resetAt)

theorem lookup_setEntry_self (st : RState) (d : String) (e : RateEntry) :
    lookupEntry (setEntry st d e) d = some e := by
  induction st with
  | nil => simp [setEntry, lookupEntry, List.find?]
  | cons p rest ih =>
    obtain ⟨k, v⟩ := p
    by_cases h : k = d
    · simp [setEntry, h, lookupEntry, List.find?]
    · simp only [setEntry, if_neg h]
      simp only [lookupEntry, List.find?] at ih ⊢
      simp [h, ih]

theorem checkRateLimit_inv (d : String) (t0 : ℕ) (st : RState) (a : ℕ) (now : ℕ)
    (hinv : windowInv d t0 st a) (ht1 : t0 ≤ now) (ht2 : now < t0 + 60000) :
    windowInv d t0 (checkRateLimit st d now).2
      (a + (if (checkRateLimit st d now).1 then 1 else 0)) := by
  rcases hl : lookupEntry st d with _ | entry
  · have ha : a = 0 := by
      rcases hinv with ⟨_, ha⟩ | ⟨e, he, _⟩
      · exact ha
      · rw [hl] at he; cases he
    subst ha
    simp only [checkRateLimit, hl]
    refine Or.inr ⟨⟨1, now + 60000⟩, lookup_setEntry_self st d _, ?_, ?_, ?_⟩
    all_goals simp
    all_goals omega
  · rcases hinv with ⟨hn, _⟩ | ⟨e, he, hae, hc, hr⟩
    · rw [hl] at hn; cases hn
    · rw [hl] at he
      cases Option.some.inj he
      have hreset : ¬ entry.resetAt ≤ now := by omega
      by_cases hfull : 1000 ≤ entry.count
      · simp only [checkRateLimit, hl, if_neg hreset, if_pos hfull]
        refine Or.inr ⟨entry, hl, ?_, hc, hr⟩
        simp
        omega
      · simp only [checkRateLimit, hl, if_neg hreset, if_neg hfull]
        refine Or.inr ⟨⟨entry.count + 1, entry.resetAt⟩, lookup_setEntry_self st d _,
          ?_, ?_, ?_⟩
        all_goals simp
        all_goals omega

theorem serveIngest_inv (d : String) (t0 : ℕ) (st : RState) (a : ℕ) (req : IngReq)
    (hinv : windowInv d t0 st a) (hd : deviceKey req = d)
    (ht1 : t0 ≤ req.time) (ht2 : req.time < t0 + 60000) :
    windowInv d t0 (serveIngest st req).2
      (a + (if (serveIngest st req).1.status = 202 then 1 else 0)) := by
  subst hd
  unfold serveIngest
  by_cases h1 : req.method = "OPTIONS"
  · simpa [h1] using hinv
  · by_cases h2 : req.method = "POST"
    · simp only [if_neg h1, h2, ne_eq, not_true_eq_false, if_false, ite_false]
      match hev : req.events with
      | none => simpa using hinv
      | some evs =>
        by_cases h3 : 100 < evs.length
        · simpa [h3] using hinv
        · simp only [if_neg h3]
          have key := checkRateLimit_inv (deviceKey req) t0 st a req.time hinv ht1 ht2
          match hc : checkRateLimit st (deviceKey req) req.time with
          | (false, st') =>
            rw [hc] at key
            simpa using key
          | (true, st') =>
            rw [hc] at key
            simpa using key
    · simp only [if_neg h1]
      have : req.method ≠ "POST" := h2
      simpa [this] using hinv

theorem runIngest_inv (d : String) (t0 : ℕ) (reqs : List IngReq) (st : RState) (a : ℕ)
    (hinv : windowInv d t0 st a)
    (hreqs : ∀ r ∈ reqs, deviceKey r = d ∧ t0 ≤ r.time ∧ r.time < t0 + 60000) :
    windowInv d t0 (runIngest st reqs).2
      (a + (runIngest st reqs).1.countP (fun resp => resp.status = 202)) := by
  induction reqs generalizing st a with
  | nil => simpa [runIngest] using hinv
  | cons r rest ih =>
    obtain ⟨hd, ht1, ht2⟩ := hreqs r (List.mem_cons_self r rest)
    have step := serveIngest_inv d t0 st a r hinv hd ht1 ht2
    have tail := ih (serveIngest st r).2 _ step
      (fun x hx => hreqs x (List.mem_cons_of_mem r hx))
    simp only [runIngest]
    by_cases hs : (serveIngest st r).1.status = 202
    · simp only [hs, if_pos] at step
      simpa [List.countP_cons, hs, Nat.add_comm, Nat.add_assoc, Nat.add_left_comm] using tail
    · simp only [hs, if_neg, Nat.add_zero] at step
      simpa [List.countP_cons, hs] using tail

theorem windowInv_le (d : String) (t0 : ℕ) (st : RState) (a : ℕ)
    (h : windowInv d t0 st a) : a ≤ 1000 := by
  rcases h with ⟨_, ha⟩ | ⟨e, _, hae, hc, _⟩
  · omega
  · omega

theorem rate_limit_rejects_at_cap (st : RState) (req : IngReq) (entry : RateEntry)
    (evs : List String)
    (hm : req.method = "POST") (hev : req.events = some evs)
    (hlen : evs.length ≤ 100)
    (hl : lookupEntry st (deviceKey req) = some entry)
    (hwin : req.time < entry.resetAt) (hcap : 1000 ≤ entry.count) :
    (serveIngest st req).1 = ⟨429, some "RATE_LIMIT_EXCEEDED", some 60, none⟩ := by
  have h1 : req.method ≠ "OPTIONS" := by rw [hm]; decide
  have h3 : ¬ 100 < evs.length := by omega
  have hcheck : checkRateLimit st (deviceKey req) req.time = (false, st) := by
    unfold checkRateLimit
    rw [hl]
    have : ¬ entry.resetAt ≤ req.time := by omega
    simp [this, hcap]
  simp [serveIngest, h1, hm, hev, h3, hcheck]

theorem rate_limit_window_bound (d : String) (t0 : ℕ) (reqs : List IngReq)
    (hreqs : ∀ r ∈ reqs, deviceKey r = d ∧ t0 ≤ r.time ∧ r.time < t0 + 60000) :
    (runIngest [] reqs).1.countP (fun resp => resp.status = 202) ≤ 1000 := by
  have h0 : windowInv d t0 [] 0 := Or.inl ⟨rfl, rfl⟩
  have := runIngest_inv d t0 reqs [] 0 h0 hreqs
  simpa using windowInv_le d t0 _ _ this

/-- C2 amended: the limiter is a per-device fixed-window request counter.
Starting from a state with no entry for device d, any request sequence
resolving to d whose times lie within 60 seconds of a common origin gets at
most 1000 accepted (202) responses, regardless of how many events each
accepted batch carries; and a well-formed POST batch arriving while the
window count for its device is already at 1000 is answered with HTTP 429,
code RATE_LIMIT_EXCEEDED and Retry-After: 60, accepting none of its events. -/
theorem rate_limit_amended (d : String) (t0 : ℕ) (reqs : List IngReq)
    (hreqs : ∀ r ∈ reqs, deviceKey r = d ∧ t0 ≤ r.time ∧ r.time < t0 + 60000)
    (st : RState) (req : IngReq) (entry : RateEntry) (evs : List String)
    (hm : req.method = "POST") (hev : req.events = some evs)
    (hlen : evs.length ≤ 100)
    (hl : lookupEntry st (deviceKey req) = some entry)
    (hwin : req.time < entry.resetAt) (hcap : 1000 ≤ entry.count) :
    (runIngest [] reqs).1.countP (fun resp => resp.status = 202) ≤ 1000 ∧
    (serveIngest st req).1 = ⟨429, some "RATE_LIMIT_EXCEEDED", some 60, none⟩ :=
  ⟨rate_limit_window_bound d t0 reqs hreqs,
    rate_limit_rejects_at_cap st req entry evs hm hev hlen hl hwin hcap⟩

/-- Witness for rate_limit_amended at a concrete trace (three requests inside
one window) and a concrete saturated state. -/
theorem rate_limit_amended_witness :
    (∀ r ∈ List.replicate 3 batchReq,
      deviceKey r = "devA" ∧ 0 ≤ r.time ∧ r.time < 0 + 60000) ∧
    (runIngest [] (List.replicate 3 batchReq)).1.countP
      (fun resp => resp.status = 202) ≤ 1000 ∧
    (serveIngest [("devA", ⟨1000, 50000⟩)] batchReq).1 =
      ⟨429, some "RATE_LIMIT_EXCEEDED", some 60, none⟩ := by
  have h := rate_limit_amended "devA" 0 (List.replicate 3 batchReq)
    (by decide) [("devA", ⟨1000, 50000⟩)] batchReq ⟨1000, 50000⟩
    (List.replicate 100 "org1") (by decide) (by decide) (by decide)
    (by decide) (by decide) (by decide)
  exact ⟨by decide, h.1, h.2⟩

end Ingest

/-! ## Executor: the ghost-executor edge function.  executeNode, the plan
execution loop with self-healing of serve, createExecutionPlan, and the
surrounding request handler.  The HTTP fetch of executeApiCall and the LLM
port are oracle parameters: apiExec returns the api_call outcome (Except
models a thrown network error), llmHeal returns the parsed self-healing
suggestion (none models a thrown LLM call, null content, no JSON match, or a
parse error — all of which attemptSelfHealing maps to null). -/

namespace Executor

structure Params where
  selector_strategy : Option String := none
  reason : Option String := none
  context : Option String := none
  endpoint : Option String := none
  method : Option String := none
  deriving DecidableEq, Repr

structure NodeAction where
  tool : String
  params : Params
  deriving DecidableEq, Repr

structure ExecNode where
  id : String
  action : Option NodeAction
  deriving DecidableEq, Repr

inductive StepStatus
  | completed
  | failed
  | skipped
  deriving DecidableEq, Repr

inductive StepOutput
  | apiResult (status : ℕ) (body : String)
  | browserNote (tool : String)
  | escalated (reason : Option String) (context : Option String)
  | unknownTool (msg : String)
  deriving DecidableEq, Repr

structure StepResult where
  nodeId : String
  status : StepStatus
  strategy : String
  output : Option StepOutput
  error : Option String
  deriving DecidableEq, Repr

/-- Outcome oracle for executeApiCall: ok is the response object, error is a
thrown fetch/network exception with its message. -/
abbrev ApiOracle := Params → Except String StepOutput

/-- executeNode from ghost-executor (wall-clock durations are not modelled;
the claims do not mention them). -/
def executeNode (apiExec : ApiOracle) (node : ExecNode) : StepResult :=
  match node.action with
  | none => ⟨node.id, .skipped, "none", none, none⟩
  | some act =>
    if act.tool = "api_call" then
      match apiExec act.params with
      | .ok out => ⟨node.id, .completed, "api", some out, none⟩
      | .error e => ⟨node.id, .failed, "direct", none, some e⟩
    else if act.tool = "navigate_to" || act.tool = "click_element" ||
        act.tool = "input_text" || act.tool = "extract_data" then
      ⟨node.id, .completed, GhostSpec.jsOrStr act.params.selector_strategy "semantic",
        some (.browserNote act.tool), none⟩
    else if act.tool = "human_escalation" then
      ⟨node.id, .completed, "human", some (.escalated act.params.reason act.params.context), none⟩
    else
      ⟨node.id, .completed, "unknown", some (.unknownTool act.tool), none⟩

/-- Oracle for the self-healing LLM round trip: given the failed node and its
step result, the parsed alternative action, or none for any failure of the
call, the content, the JSON match or the parse. -/
abbrev HealOracle := ExecNode → StepResult → Option NodeAction

/-- attemptSelfHealing from ghost-executor: build the substitute node, execute
it, and prefix its strategy; all failure modes return none. -/
def attemptSelfHealing (apiExec : ApiOracle) (llmHeal : HealOracle)
    (failedNode : ExecNode) (failedResult : StepResult) : Option StepResult :=
  match llmHeal failedNode failedResult with
  | none => none
  | some alt =>
    let altNode : ExecNode := ⟨failedNode.id ++ "_healed", some alt⟩
    let altResult := executeNode apiExec altNode
    some { altResult with strategy := "self_healed:" ++ altResult.strategy }

inductive ExecStatus
  | completed
  | failed
  deriving DecidableEq, Repr

/-- The plan-execution loop of serve (ghost-executor): record each step; on a
failed step try self-healing; a produced substitute is recorded (whatever its
own status) and the loop continues; if healing yields nothing the execution is
marked failed and iteration stops. -/
def runPlan (apiExec : ApiOracle) (llmHeal : HealOracle) :
    List ExecNode → List StepResult × ExecStatus
  | [] => ([], .completed)
  | node :: rest =>
    let stepResult := executeNode apiExec node
    if stepResult.status = .failed then
      match attemptSelfHealing apiExec llmHeal node stepResult with
      | some healResult =>
        let (steps, st) := runPlan apiExec llmHeal rest
        (stepResult :: healResult :: steps, st)
      | none => ([stepResult], .failed)
    else
      let (steps, st) := runPlan apiExec llmHeal rest
      (stepResult :: steps, st)

def failingApi : ApiOracle := fun _ => .error "network unreachable"

def apiNode : ExecNode :=
  ⟨"s1", some ⟨"api_call", { endpoint := some "https://broken", method := some "GET" }⟩⟩

/-- A healing oracle that proposes another api_call, which will also fail. -/
def healWithApi : HealOracle := fun _ _ =>
  some ⟨"api_call", { endpoint := some "https://broken2", method := some "GET" }⟩

/-- C1 counterexample: with an upstream that throws, the original step fails
and the LLM proposes a substitute that also fails; both recorded steps have
status failed, yet the loop continues and the final execution status is
completed.  This falsifies both directions of the claim: the execution is
completed although recorded steps failed, and a failed substitute neither
marks the execution failed nor stops iteration. -/
theorem self_heal_closure_counterexample :
    (runPlan failingApi healWithApi [apiNode]).2 = .completed ∧
    ((runPlan failingApi healWithApi [apiNode]).1.map (fun s => s.status)) =
      [.failed, .failed] ∧
    ((runPlan failingApi healWithApi [apiNode]).1.map (fun s => s.strategy)) =
      ["direct", "self_healed:direct"] := by
  refine ⟨rfl, rfl, rfl⟩

/-- C1 amended: the final status of the execution loop is completed if and
only if no plan node both fails and has self-healing return nothing; a failed
node whose self-heal produces a substitute is recorded together with the
substitute (of either status) and the loop continues, so completed does not
imply that every recorded step finished completed or skipped.  Only a failed
node with a failed replan (none from the heal oracle) marks the execution
failed and stops iteration. -/
theorem runPlan_completed_iff (apiExec : ApiOracle) (llmHeal : HealOracle)
    (plan : List ExecNode) :
    (runPlan apiExec llmHeal plan).2 = .completed ↔
      ∀ node ∈ plan, (executeNode apiExec node).status = .failed →
        attemptSelfHealing apiExec llmHeal node (executeNode apiExec node) ≠ none := by
  induction plan with
  | nil => simp [runPlan]
  | cons node rest ih =>
    simp only [runPlan]
    by_cases hf : (executeNode apiExec node).status = .failed
    · simp only [if_pos hf]
      match hh : attemptSelfHealing apiExec llmHeal node (executeNode apiExec node) with
      | some healResult =>
        simp only [List.mem_cons]
        constructor
        · intro h x hx hxf
          rcases hx with rfl | hx
          · rw [hh]; simp
          · exact (ih.mp h) x hx hxf
        · intro h
          exact ih.mpr (fun x hx hxf => h x (Or.inr hx) hxf)
      | none =>
        simp only [List.mem_cons]
        constructor
        · intro h; cases h
        · intro h
          exact absurd hh (h node (Or.inl rfl) hf)
    · simp only [if_neg hf]
      simp only [List.mem_cons]
      constructor
      · intro h x hx hxf
        rcases hx with rfl | hx
        · exact absurd hxf hf
        · exact (ih.mp h) x hx hxf
      · intro h
        exact ih.mpr (fun x hx hxf => h x (Or.inr hx) hxf)

/-- Witness for runPlan_completed_iff at a concrete plan whose only failing
node has a successful replan: the loop finishes completed. -/
theorem runPlan_completed_iff_witness :
    (runPlan failingApi
      (fun _ _ => some ⟨"human_escalation", { reason := some "manual" }⟩)
      [apiNode]).2 = .completed :=
  (runPlan_completed_iff failingApi
    (fun _ _ => some ⟨"human_escalation", { reason := some "manual" }⟩)
    [apiNode]).mpr (by decide)

/-- Ghost row as the executor reads it. -/
structure Ghost where
  name : String
  status : String
  execution_plan : Option (List ExecNode)
  deriving Repr

/-- Oracle for the planner LLM round trip modelling llm.complete:
Except.error is a thrown call; ok none is a null/empty content; ok (some
none) is content whose bracketed JSON array is missing or unparseable; ok
(some (some plan)) is a parsed plan array. -/
abbrev PlanOracle := Except String (Option (Option (List ExecNode)))

/-- The fallback plan of createExecutionPlan. -/
def defaultEscalationPlan : List ExecNode :=
  [⟨"step_1", some ⟨"human_escalation",
    { reason := some "Could not generate execution plan automatically" }⟩⟩]

/-- createExecutionPlan from ghost-executor: a stored execution_plan array is
used as-is; otherwise the LLM is called — a thrown call propagates (there is
no try/catch around llm.complete), while empty content or an unparseable
response falls through to the single-step escalation plan. -/
def createExecutionPlan (ghost : Ghost) (llmPlan : PlanOracle) :
    Except String (List ExecNode) :=
  match ghost.execution_plan with
  | some plan => .ok plan
  | none =>
    match llmPlan with
    | .error e => .error e
    | .ok none => .ok defaultEscalationPlan
    | .ok (some none) => .ok defaultEscalationPlan
    | .ok (some (some plan)) => .ok plan

structure ServeResult where
  httpStatus : ℕ
  errorCode : Option String
  auditWritten : Bool
  execStatus : Option ExecStatus
  steps : List StepResult
  deriving Repr

/-- The serve handler of ghost-executor from the point where the ghost row
has been fetched: status gate, planning, execution loop, finalization with
the execution_logs audit row, and the outer catch that turns any thrown
error into a 500 EXECUTION_ERROR response (before the audit insert runs). -/
def executeGhost (ghost? : Option Ghost) (llmPlan : PlanOracle)
    (apiExec : ApiOracle) (llmHeal : HealOracle) : ServeResult :=
  match ghost? with
  | none => ⟨404, some "GHOST_NOT_FOUND", false, none, []⟩
  | some ghost =>
    if ghost.status ≠ "approved" ∧ ghost.status ≠ "active" then
      ⟨403, some "GHOST_NOT_APPROVED", false, none, []⟩
    else
      match createExecutionPlan ghost llmPlan with
      | .error _ => ⟨500, some "EXECUTION_ERROR", false, none, []⟩
      | .ok plan =>
        let (steps, st) := runPlan apiExec llmHeal plan
        ⟨200, none, true, some st, steps⟩

def planlessGhost : Ghost := ⟨"Demo", "approved", none⟩

/-- C9 counterexample: when the planner LLM call itself throws, the error is
not absorbed by createExecutionPlan (only empty and unparseable responses
are); it propagates to the outer catch, the request fails with HTTP 500 and
code EXECUTION_ERROR, and the audit row is never written — contradicting the
claim that every planning failure yields the escalation plan and never
surfaces as a request-level error. -/
theorem planner_throw_counterexample :
    createExecutionPlan planlessGhost (.error "LLM unavailable") =
      .error "LLM unavailable" ∧
    (executeGhost (some planlessGhost) (.error "LLM unavailable") failingApi healWithApi).httpStatus = 500 ∧
    (executeGhost (some planlessGhost) (.error "LLM unavailable") failingApi healWithApi).errorCode =
      some "EXECUTION_ERROR" ∧
    (executeGhost (some planlessGhost) (.error "LLM unavailable") failingApi healWithApi).auditWritten = false := by
  refine ⟨rfl, rfl, rfl, rfl⟩

/-- C9 amended: planner failures that produce a response — null or empty
content, or output with no parseable JSON array — yield the single-step
human-escalation plan with reason "Could not generate execution plan
automatically", and in that case the request succeeds and the audit row is
written; but a thrown LLM call propagates out of createExecutionPlan and the
request fails with 500 EXECUTION_ERROR without an audit row. -/
theorem planner_failure_modes (ghost : Ghost) (apiExec : ApiOracle) (llmHeal : HealOracle)
    (hplan : ghost.execution_plan = none) (happroved : ghost.status = "approved") :
    (∀ r : PlanOracle, (r = .ok none ∨ r = .ok (some none)) →
      createExecutionPlan ghost r = .ok defaultEscalationPlan) ∧
    (∀ r : PlanOracle, (r = .ok none ∨ r = .ok (some none)) →
      (executeGhost (some ghost) r apiExec llmHeal).httpStatus = 200 ∧
      (executeGhost (some ghost) r apiExec llmHeal).auditWritten = true) ∧
    (∀ e : String,
      (executeGhost (some ghost) (.error e) apiExec llmHeal).httpStatus = 500 ∧
      (executeGhost (some ghost) (.error e) apiExec llmHeal).errorCode = some "EXECUTION_ERROR" ∧
      (executeGhost (some ghost) (.error e) apiExec llmHeal).auditWritten = false) := by
  have hgate : ¬ (ghost.status ≠ "approved" ∧ ghost.status ≠ "active") := by
    rw [happroved]; simp
  refine ⟨?_, ?_, ?_⟩
  · intro r hr
    rcases hr with rfl | rfl <;> simp [createExecutionPlan, hplan]
  · intro r hr
    rcases hr with rfl | rfl <;>
      simp [executeGhost, hgate, createExecutionPlan, hplan]
  · intro e
    simp [executeGhost, hgate, createExecutionPlan, hplan]

/-- Witness for planner_failure_modes at a concrete approved plan-less ghost,
with both recoverable failure modes and a thrown call. -/
theorem planner_failure_modes_witness :
    (planlessGhost.execution_plan = none ∧ planlessGhost.status = "approved") ∧
    createExecutionPlan planlessGhost (.ok none) = .ok defaultEscalationPlan ∧
    (executeGhost (some planlessGhost) (.ok (some none)) failingApi healWithApi).httpStatus = 200 ∧
    (executeGhost (some planlessGhost) (.error "down") failingApi healWithApi).httpStatus = 500 := by
  refine ⟨⟨rfl, rfl⟩, ?_, ?_, ?_⟩
  · exact (planner_failure_modes planlessGhost failingApi healWithApi rfl rfl).1
      (.ok none) (Or.inl rfl)
  · exact ((planner_failure_modes planlessGhost failingApi healWithApi rfl rfl).2.1
      (.ok (some none)) (Or.inr rfl)).1
  · exact ((planner_failure_modes planlessGhost failingApi healWithApi rfl rfl).2.2 "down").1

end Executor

/-! ## Encoder: the extension privacy pipeline.  IntentEncoder.classify with
its three per-type classifiers, the deterministic 128-dimensional vector
generation, DifferentialPrivacy.perturbVector with Box-Muller Gaussian noise,
and PrivacyPipeline.process restricted to the intent-related fields of the
Secure Event.  JavaScript numbers are rationals; the normalization and noise
steps, which use sqrt/log/cos, live in the reals.  Math.random is modelled as
a stream of reals in [0,1).  The PII scrubbing and URL hashing applied by the
pipeline before classification are oracle parameters (the regex engine and
URL parser are external); classification reads only fields they preserve. -/

namespace Encoder

structure Position where
  relativeX : ℚ
  relativeY : ℚ
  deriving DecidableEq, Repr

structure Target where
  tagName : String
  role : Option String
  inputType : Option String
  formId : Option String
  domPath : List String
  position : Option Position
  textPreview : Option String
  deriving DecidableEq, Repr

structure Mutation where
  addedNodes : ℕ
  removedNodes : ℕ
  targetTag : String
  targetFormId : Option String
  oldValue : Option String
  newValue : Option String
  deriving DecidableEq, Repr

structure Payload where
  action : Option String := none
  target : Option Target := none
  mutations : Option (List Mutation) := none
  method : Option String := none
  url : Option String := none
  statusCode : Option ℕ := none
  value : Option String := none
  message : Option String := none
  deriving DecidableEq, Repr

structure RawEvent where
  eventType : String
  payload : Payload
  contextUrl : String
  deriving DecidableEq, Repr

/-- JavaScript truthiness of an optional string (undefined and empty are
falsy). -/
def jsTruthyStr (o : Option String) : Bool :=
  match o with
  | none => false
  | some s => s ≠ ""

/-- url.includes(sub). -/
def strIncludes (s sub : String) : Bool := decide (List.IsInfix sub.toList s.toList)

/-- ASCII uppercase of one character (method strings are ASCII). -/
def charUpper (c : Char) : Char :=
  if 97 ≤ c.toNat ∧ c.toNat ≤ 122 then Char.ofNat (c.toNat - 32) else c

/-- method.toUpperCase() on ASCII method strings. -/
def jsToUpper (s : String) : String := String.mk (s.toList.map charUpper)

def tagNameOf (ev : RawEvent) : String :=
  GhostSpec.jsOrStr (ev.payload.target.map (fun t => t.tagName)) ""

def roleOf (ev : RawEvent) : String :=
  GhostSpec.jsOrStr (ev.payload.target.bind (fun t => t.role)) ""

def inputTypeOf (ev : RawEvent) : String :=
  GhostSpec.jsOrStr (ev.payload.target.bind (fun t => t.inputType)) ""

/-- classifyUserInteraction from intent-encoder.ts. -/
def classifyUserInteraction (ev : RawEvent) : String × ℚ :=
  let action := ev.payload.action
  let tagName := tagNameOf ev
  let role := roleOf ev
  let inputType := inputTypeOf ev
  if action = some "input" ∨ action = some "paste" then
    if inputType = "password" ∨ inputType = "email" then ("authentication", 0.85)
    else ("data_entry", 0.9)
  else if action = some "navigate" then ("navigation", 0.95)
  else if action = some "click" ∧ tagName = "a" then ("navigation", 0.85)
  else if action = some "click" ∧
      (tagName = "button" ∨ role = "button" ∨ inputType = "submit") then
    if jsTruthyStr (ev.payload.target.bind (fun t => t.formId)) then ("data_entry", 0.8)
    else ("workflow_transition", 0.7)
  else if action = some "click" ∧ (inputType = "checkbox" ∨ inputType = "radio") then
    ("configuration", 0.75)
  else if action = some "select" then ("data_entry", 0.85)
  else if action = some "copy" then ("data_extraction", 0.8)
  else if action = some "scroll" then ("research", 0.5)
  else if action = some "focus" then ("navigation", 0.4)
  else ("unknown", 0.2)

/-- classifyDomMutation from intent-encoder.ts.  Note the code checks
formId !== null here (not truthiness). -/
def classifyDomMutation (ev : RawEvent) : String × ℚ :=
  let mutations := ev.payload.mutations.getD []
  if mutations = [] then ("unknown", 0.1)
  else
    let totalNodes : ℕ := (mutations.map (fun m => m.addedNodes + m.removedNodes)).sum
    if 20 < totalNodes then ("navigation", 0.6)
    else
      let formMutations := mutations.filter
        (fun m => m.targetTag = "input" ∨ m.targetTag = "textarea" ∨
          m.targetTag = "select" ∨ m.targetFormId ≠ none)
      if formMutations ≠ [] then ("data_entry", 0.5)
      else ("workflow_transition", 0.4)

def netMethod (ev : RawEvent) : String :=
  GhostSpec.jsOrStr (ev.payload.method.map jsToUpper) "GET"

def netUrl (ev : RawEvent) : String := GhostSpec.jsOrStr ev.payload.url ""

def netStatus (ev : RawEvent) : ℕ := ev.payload.statusCode.getD 0

/-- classifyNetworkEvent from intent-encoder.ts. -/
def classifyNetworkEvent (ev : RawEvent) : String × ℚ :=
  let method := netMethod ev
  let url := netUrl ev
  let status := netStatus ev
  if method = "POST" ∨ method = "PUT" ∨ method = "PATCH" then
    if strIncludes url "auth" ∨ strIncludes url "login" ∨ strIncludes url "token" then
      ("authentication", 0.85)
    else if strIncludes url "message" ∨ strIncludes url "email" ∨ strIncludes url "send" then
      ("communication", 0.75)
    else ("data_entry", 0.7)
  else if method = "DELETE" then ("workflow_transition", 0.7)
  else if strIncludes url "search" ∨ strIncludes url "query" then ("research", 0.7)
  else if strIncludes url "export" ∨ strIncludes url "download" then
    ("data_extraction", 0.75)
  else if 400 ≤ status then ("error_handling", 0.6)
  else ("navigation", 0.4)

/-- classify from intent-encoder.ts. -/
def classify (ev : RawEvent) : String × ℚ :=
  if ev.eventType = "user_int" then classifyUserInteraction ev
  else if ev.eventType = "dom_mut" then classifyDomMutation ev
  else if ev.eventType = "network" then classifyNetworkEvent ev
  else if ev.eventType = "error" then ("error_handling", 0.9)
  else ("unknown", 0.1)

/-- ToInt32 conversion performed by JavaScript bitwise operators. -/
def toInt32 (z : ℤ) : ℤ := (z + 2 ^ 31).emod (2 ^ 32) - 2 ^ 31

/-- hashToFloat from intent-encoder.ts: iterated hash*31+code reduced to
int32, then masked to 31 bits and scaled into [0,1]. -/
def hashToFloat (s : String) : ℚ :=
  let h := s.toList.foldl (fun h c => toInt32 (h * 31 + c.toNat)) 0
  (((h.emod (2 ^ 32)).emod (2 ^ 31) : ℤ) : ℚ) / (2 ^ 31 - 1)

def actionsList : List String :=
  ["click", "input", "scroll", "navigate", "focus", "select", "copy", "paste"]

def methodsList : List String := ["GET", "POST", "PUT", "PATCH", "DELETE"]

/-- extractFeatures from intent-encoder.ts: seven numeric features padded
with zeros to exactly 128 entries. -/
def extractFeatures (ev : RawEvent) : List ℚ :=
  let actionFeat : ℚ :=
    match actionsList.indexOf? (GhostSpec.jsOrStr ev.payload.action "") with
    | some i => (i : ℚ) / 8
    | none => 0
  let tagFeat : ℚ := hashToFloat (tagNameOf ev)
  let depthFeat : ℚ :=
    let d : ℚ := (((ev.payload.target.map (fun t => t.domPath)).getD []).length : ℚ) / 20
    if d ≤ 1 then d else 1
  let posFeats : List ℚ :=
    match ev.payload.target.bind (fun t => t.position) with
    | some p => [p.relativeX, p.relativeY]
    | none => [0, 0]
  let methodFeat : ℚ :=
    match methodsList.indexOf? (GhostSpec.jsOrStr (ev.payload.method.map jsToUpper) "") with
    | some i => (i : ℚ) / 5
    | none => 0
  let statusFeat : ℚ := (netStatus ev : ℚ) / 600
  let features := [actionFeat, tagFeat, depthFeat] ++ posFeats ++ [methodFeat, statusFeat]
  (features ++ List.replicate (128 - features.length) 0).take 128

/-- Per-class seed constants (INTENT_SEEDS). -/
def intentSeed (label : String) : ℕ :=
  if label = "data_entry" then 0x1a2b3c4d
  else if label = "navigation" then 0x2b3c4d5e
  else if label = "communication" then 0x3c4d5e6f
  else if label = "research" then 0x4d5e6f70
  else if label = "approval" then 0x5e6f7081
  else if label = "file_operation" then 0x6f708192
  else if label = "authentication" then 0x708192a3
  else if label = "configuration" then 0x8192a3b4
  else if label = "data_extraction" then 0x92a3b4c5
  else if label = "workflow_transition" then 0xa3b4c5d6
  else if label = "error_handling" then 0xb4c5d6e7
  else 0xc5d6e7f8

/-- One step of the linear congruential generator.  The JavaScript source
computes (rng * 1103515245 + 12345) & 0x7fffffff on doubles, whose product
may lose low bits to rounding before the mask; the exact integer recurrence
is used here.  The proofs rely only on the masked range 0..2^31-1, which
holds either way. -/
def lcgIter (rng : ℕ) : ℕ := (rng * 1103515245 + 12345) % 2147483648

def lcgList : ℕ → ℕ → List ℚ
  | _, 0 => []
  | rng, n + 1 =>
    let r := lcgIter rng
    (((r : ℚ) / 2147483647) * 2 - 1) * (1 / 2) :: lcgList r n

/-- Base vector of generateVector: 128 LCG-derived values in [-0.5, 0.5]. -/
def baseVector (seed : ℕ) : List ℚ := lcgList seed 128

/-- The vector after mixing event features in at weight 0.3, before
normalization (generateVector up to the L2-normalize step). -/
def mixedVector (label : String) (ev : RawEvent) : List ℚ :=
  (baseVector (intentSeed label)).zipWith
    (fun v f => v * (7 / 10) + f * (3 / 10)) (extractFeatures ev)

def normSq (label : String) (ev : RawEvent) : ℚ :=
  ((mixedVector label ev).map (fun x => x * x)).sum

/-- Quantization to 4 decimals with Math.round semantics, on reals. -/
noncomputable def round4R (x : ℝ) : ℝ := ((⌊x * 10000 + 1 / 2⌋ : ℤ) : ℝ) / 10000

/-- generateVector from intent-encoder.ts: LCG base mixed with features, then
L2-normalized and quantized when the norm is positive (Math.sqrt(S) > 0 iff
S > 0). -/
noncomputable def generateVector (label : String) (ev : RawEvent) : List ℝ :=
  if 0 < normSq label ev then
    List.map (fun x => round4R (((x : ℚ) : ℝ) / Real.sqrt ((normSq label ev : ℚ) : ℝ)))
      (mixedVector label ev)
  else
    List.map (fun x => ((x : ℚ) : ℝ)) (mixedVector label ev)

/-- Box-Muller gaussianNoise from differential-privacy.ts. -/
noncomputable def gaussianNoise (mean stddev u1 u2 : ℝ) : ℝ :=
  Real.sqrt (-2 * Real.log u1) * Real.cos (2 * Real.pi * u2) * stddev + mean

/-- Element-wise perturbation loop of perturbVector: each vector entry
consumes two Math.random draws (u1 then u2) from the stream. -/
noncomputable def perturbGo (rand : ℕ → ℝ) (sigma : ℝ) : ℕ → List ℝ → List ℝ
  | _, [] => []
  | i, x :: xs =>
    round4R (x + gaussianNoise 0 sigma (rand (2 * i)) (rand (2 * i + 1))) ::
      perturbGo rand sigma (i + 1) xs

/-- perturbVector from differential-privacy.ts with the default epsilon = 1:
sigma = sqrt 2 / epsilon, noise added per dimension, quantized to 4
decimals. -/
noncomputable def perturbVector (v : List ℝ) (rand : ℕ → ℝ) : List ℝ :=
  perturbGo rand (Real.sqrt 2 / 1) 0 v

/-- A stream of Math.random draws is admissible when every draw lies in
[0, 1). -/
def ValidRandStream (rand : ℕ → ℝ) : Prop := ∀ n, 0 ≤ rand n ∧ rand n < 1

/-- scrubEvent from pipeline.ts, with the PiiScrubber scrub/containsPii pair
and the URL hasher as oracles: the text-carrying fields are rewritten, the
structural fields are untouched. -/
def scrubEvent (scrub : String → String) (hasPii : String → Bool)
    (hashUrl : String → String) (ev : RawEvent) : RawEvent :=
  { eventType := ev.eventType
    payload :=
      { ev.payload with
        value := ev.payload.value.map scrub
        message := ev.payload.message.map scrub
        target := ev.payload.target.map
          (fun t => { t with textPreview := t.textPreview.map scrub })
        mutations := ev.payload.mutations.map (List.map
          (fun m => { m with oldValue := m.oldValue.map scrub,
                             newValue := m.newValue.map scrub }))
        url := ev.payload.url.map (fun u => if hasPii u then scrub u else u) }
    contextUrl := hashUrl ev.contextUrl }

structure IntentOutput where
  intentLabel : String
  intentConfidence : ℚ
  intentVector : List ℝ

/-- PrivacyPipeline.process restricted to the intent-related Secure Event
fields: scrub, classify, generate the vector, perturb it, and round the
confidence to two decimals.  The fingerprint, timestamp-bucket and
structural-hash fields are handled by their own components below. -/
noncomputable def processIntent (scrub : String → String) (hasPii : String → Bool)
    (hashUrl : String → String) (ev : RawEvent) (rand : ℕ → ℝ) : IntentOutput :=
  let scrubbed := scrubEvent scrub hasPii hashUrl ev
  let cls := classify scrubbed
  { intentLabel := cls.1
    intentConfidence := GhostSpec.round2 cls.2
    intentVector := perturbVector (generateVector cls.1 scrubbed) rand }

/-- Sum of squares of the entries, the square of the L2 norm. -/
def l2normSq (v : List ℝ) : ℝ := (v.map (fun x => x ^ 2)).sum

end Encoder

namespace Encoder

/-- Helper: input/paste on a password or email input classifies as
authentication 0.85. -/
theorem classify_auth_input (ev : RawEvent) (he : ev.eventType = "user_int")
    (ha : ev.payload.action = some "input" ∨ ev.payload.action = some "paste")
    (hp : inputTypeOf ev = "password" ∨ inputTypeOf ev = "email") :
    classify ev = ("authentication", 0.85) := by
  have hfirst : ev.payload.action = some "input" ∨ ev.payload.action = some "paste" := ha
  simp only [classify, he, if_pos, classifyUserInteraction, reduceIte]
  rw [if_pos hfirst, if_pos hp]

/-- Helper: input/paste elsewhere classifies as data_entry 0.9. -/
theorem classify_data_entry_input (ev : RawEvent) (he : ev.eventType = "user_int")
    (ha : ev.payload.action = some "input" ∨ ev.payload.action = some "paste")
    (hp : ¬ (inputTypeOf ev = "password" ∨ inputTypeOf ev = "email")) :
    classify ev = ("data_entry", 0.9) := by
  simp only [classify, he, if_pos, classifyUserInteraction, reduceIte]
  rw [if_pos ha, if_neg hp]

/-- Helper: a plain GET network event matching no URL keyword with status
below 400 classifies as navigation 0.4, not unknown. -/
theorem classify_get_plain (ev : RawEvent) (he : ev.eventType = "network")
    (hm : netMethod ev = "GET")
    (hk1 : strIncludes (netUrl ev) "search" = false)
    (hk2 : strIncludes (netUrl ev) "query" = false)
    (hk3 : strIncludes (netUrl ev) "export" = false)
    (hk4 : strIncludes (netUrl ev) "download" = false)
    (hst : netStatus ev < 400) :
    classify ev = ("navigation", 0.4) := by
  have hne : ev.eventType ≠ "user_int" := by rw [he]; decide
  have hnd : ev.eventType ≠ "dom_mut" := by rw [he]; decide
  have hstatus : ¬ 400 ≤ netStatus ev := by omega
  simp only [classify, if_neg hne, if_neg hnd, he, if_pos, reduceIte,
    classifyNetworkEvent, hm, hk1, hk2, hk3, hk4, hstatus]
  simp

/-- Helper: a user interaction whose action matches none of the listed
actions classifies as unknown 0.2. -/
theorem classify_user_unmatched (ev : RawEvent) (he : ev.eventType = "user_int")
    (ha : ∀ s ∈ actionsList, ev.payload.action ≠ some s) :
    classify ev = ("unknown", 0.2) := by
  have h1 : ev.payload.action ≠ some "input" := ha "input" (by decide)
  have h2 : ev.payload.action ≠ some "paste" := ha "paste" (by decide)
  have h3 : ev.payload.action ≠ some "navigate" := ha "navigate" (by decide)
  have h4 : ev.payload.action ≠ some "click" := ha "click" (by decide)
  have h5 : ev.payload.action ≠ some "select" := ha "select" (by decide)
  have h6 : ev.payload.action ≠ some "copy" := ha "copy" (by decide)
  have h7 : ev.payload.action ≠ some "scroll" := ha "scroll" (by decide)
  have h8 : ev.payload.action ≠ some "focus" := ha "focus" (by decide)
  simp only [classify, he, if_pos, classifyUserInteraction, reduceIte]
  simp [h1, h2, h3, h4, h5, h6, h7, h8]

/-- Helper: a dom mutation event with a nonempty mutation list touching at
most 20 nodes and no form-related mutation falls through to
workflow_transition 0.4. -/
theorem classify_dom_unmatched (ev : RawEvent) (he : ev.eventType = "dom_mut")
    (hm : ev.payload.mutations.getD [] ≠ [])
    (hn : ((ev.payload.mutations.getD []).map
      (fun m => m.addedNodes + m.removedNodes)).sum ≤ 20)
    (hf : (ev.payload.mutations.getD []).filter
      (fun m => m.targetTag = "input" ∨ m.targetTag = "textarea" ∨
        m.targetTag = "select" ∨ m.targetFormId ≠ none) = []) :
    classify ev = ("workflow_transition", 0.4) := by
  have hnu : ev.eventType ≠ "user_int" := by rw [he]; decide
  have hnn : ¬ 20 < ((ev.payload.mutations.getD []).map
      (fun m => m.addedNodes + m.removedNodes)).sum := by omega
  have hff : ¬ ((ev.payload.mutations.getD []).filter
      (fun m => m.targetTag = "input" ∨ m.targetTag = "textarea" ∨
        m.targetTag = "select" ∨ m.targetFormId ≠ none) ≠ []) := fun hcon => hcon hf
  simp only [classify, if_neg hnu, he, if_pos, reduceIte, classifyDomMutation]
  rw [if_neg hm, if_neg hnn, if_neg hff]
  simp

def evGet : RawEvent :=
  ⟨"network",
    { method := some "GET", url := some "https://example.com/home",
      statusCode := some 200 }, ""⟩

def pwTarget : Target :=
  ⟨"input", none, some "password", some "login-form", ["body", "form", "input"],
    some ⟨1/2, 1/2⟩, none⟩

def evPastePw : RawEvent :=
  ⟨"user_int", { action := some "paste", target := some pwTarget }, ""⟩

/-- C5 counterexample: a plain GET network event with status 200 matching no
URL keyword classifies as (navigation, 0.4), not unknown with confidence in
[0.10, 0.20]; and a paste action on a password input classifies as
(authentication, 0.85), not (data_entry, 0.90) — the authentication rule also
captures paste, not only input. -/
theorem classify_counterexample :
    classify evGet = ("navigation", 0.4) ∧ (classify evGet).1 ≠ "unknown" ∧
    classify evPastePw = ("authentication", 0.85) ∧
    (classify evPastePw).2 ≠ 0.9 := by
  refine ⟨rfl, ?_, rfl, ?_⟩
  · rw [show classify evGet = ("navigation", 0.4) from rfl]
    decide
  · rw [show classify evPastePw = ("authentication", 0.85) from rfl]
    norm_num

/-- C5 amended: classify follows the code order of the decision table: an
input or paste action on a password/email input yields (authentication,
0.85) — paste included; other input/paste yields (data_entry, 0.90); a
user-interaction action matching no listed rule yields (unknown, 0.2); a
network GET matching no URL keyword with status < 400 falls through to
(navigation, 0.4), not to unknown; and a dom mutation matching no rule
(nonempty mutations, at most 20 touched nodes, no form-related mutation)
falls through to (workflow_transition, 0.4), not to unknown either. -/
theorem classify_amended :
    (∀ ev : RawEvent, ev.eventType = "user_int" →
      (ev.payload.action = some "input" ∨ ev.payload.action = some "paste") →
      (inputTypeOf ev = "password" ∨ inputTypeOf ev = "email") →
      classify ev = ("authentication", 0.85)) ∧
    (∀ ev : RawEvent, ev.eventType = "user_int" →
      (ev.payload.action = some "input" ∨ ev.payload.action = some "paste") →
      ¬ (inputTypeOf ev = "password" ∨ inputTypeOf ev = "email") →
      classify ev = ("data_entry", 0.9)) ∧
    (∀ ev : RawEvent, ev.eventType = "user_int" →
      (∀ s ∈ actionsList, ev.payload.action ≠ some s) →
      classify ev = ("unknown", 0.2)) ∧
    (∀ ev : RawEvent, ev.eventType = "network" → netMethod ev = "GET" →
      strIncludes (netUrl ev) "search" = false →
      strIncludes (netUrl ev) "query" = false →
      strIncludes (netUrl ev) "export" = false →
      strIncludes (netUrl ev) "download" = false →
      netStatus ev < 400 →
      classify ev = ("navigation", 0.4)) ∧
    (∀ ev : RawEvent, ev.eventType = "dom_mut" →
      ev.payload.mutations.getD [] ≠ [] →
      ((ev.payload.mutations.getD []).map
        (fun m => m.addedNodes + m.removedNodes)).sum ≤ 20 →
      (ev.payload.mutations.getD []).filter
        (fun m => m.targetTag = "input" ∨ m.targetTag = "textarea" ∨
          m.targetTag = "select" ∨ m.targetFormId ≠ none) = [] →
      classify ev = ("workflow_transition", 0.4)) :=
  ⟨classify_auth_input, classify_data_entry_input, classify_user_unmatched,
    classify_get_plain, classify_dom_unmatched⟩

def evInputName : RawEvent :=
  ⟨"user_int",
    { action := some "input",
      target := some ⟨"input", none, some "text", none, ["body", "input"], none, none⟩ },
    ""⟩

def evHover : RawEvent :=
  ⟨"user_int", { action := some "hover" }, ""⟩

def evMutPlain : RawEvent :=
  ⟨"dom_mut",
    { mutations := some [⟨2, 1, "div", none, none, none⟩] }, ""⟩

/-- Witness for classify_amended at concrete events of each kind. -/
theorem classify_amended_witness :
    classify evPastePw = ("authentication", 0.85) ∧
    classify evInputName = ("data_entry", 0.9) ∧
    classify evHover = ("unknown", 0.2) ∧
    classify evGet = ("navigation", 0.4) ∧
    classify evMutPlain = ("workflow_transition", 0.4) :=
  ⟨classify_amended.1 evPastePw (by decide) (by decide) (by decide),
    classify_amended.2.1 evInputName (by decide) (by decide) (by decide),
    classify_amended.2.2.1 evHover (by decide) (by decide),
    classify_amended.2.2.2.1 evGet (by decide) (by decide) (by decide) (by decide)
      (by decide) (by decide) (by decide),
    classify_amended.2.2.2.2 evMutPlain (by decide) (by decide) (by decide)
      (by decide)⟩

end Encoder

namespace Encoder

theorem lcgList_length (rng n : ℕ) : (lcgList rng n).length = n := by
  induction n generalizing rng with
  | zero => rfl
  | succ n ih => simp [lcgList, ih]

theorem extractFeatures_length (ev : RawEvent) : (extractFeatures ev).length = 128 := by
  unfold extractFeatures
  rcases hpos : ev.payload.target.bind (fun t => t.position) with _ | p <;>
    simp [hpos]

theorem mixedVector_length (label : String) (ev : RawEvent) :
    (mixedVector label ev).length = 128 := by
  simp [mixedVector, baseVector, lcgList_length, extractFeatures_length]

theorem generateVector_length (label : String) (ev : RawEvent) :
    (generateVector label ev).length = 128 := by
  unfold generateVector
  split <;> rw [List.length_map, mixedVector_length]

theorem sumSq_nonneg (l : List ℚ) : 0 ≤ (l.map (fun x => x * x)).sum := by
  induction l with
  | nil => simp
  | cons a t ih => simp only [List.map_cons, List.sum_cons]; nlinarith [mul_self_nonneg a]

theorem sq_le_sumSq (l : List ℚ) (q : ℚ) (hq : q ∈ l) :
    q * q ≤ (l.map (fun x => x * x)).sum := by
  induction l with
  | nil => cases hq
  | cons a t ih =>
    rcases List.mem_cons.mp hq with rfl | h
    · simp only [List.map_cons, List.sum_cons]
      nlinarith [sumSq_nonneg t]
    · have := ih h
      simp only [List.map_cons, List.sum_cons]
      nlinarith [mul_self_nonneg a]

theorem round4R_le (x : ℝ) : round4R x ≤ x + 1 / 20000 := by
  unfold round4R
  have h : ((⌊x * 10000 + 1 / 2⌋ : ℤ) : ℝ) ≤ x * 10000 + 1 / 2 := Int.floor_le _
  linarith

theorem round4R_ge (x : ℝ) : x - 1 / 20000 ≤ round4R x := by
  unfold round4R
  have h : x * 10000 + 1 / 2 - 1 < (⌊x * 10000 + 1 / 2⌋ : ℝ) := Int.sub_one_lt_floor _
  linarith

theorem abs_round4R_le_one {x : ℝ} (hx : |x| ≤ 1) : |round4R x| ≤ 1 := by
  obtain ⟨hl, hu⟩ := abs_le.mp hx
  have hup : ⌊x * 10000 + 1 / 2⌋ ≤ 10000 := by
    rw [Int.floor_le_iff]
    push_cast
    linarith
  have hdown : (-10000 : ℤ) ≤ ⌊x * 10000 + 1 / 2⌋ := by
    rw [Int.le_floor]
    push_cast
    linarith
  have hupR : ((⌊x * 10000 + 1 / 2⌋ : ℤ) : ℝ) ≤ 10000 := by exact_mod_cast hup
  have hdownR : (-10000 : ℝ) ≤ ((⌊x * 10000 + 1 / 2⌋ : ℤ) : ℝ) := by exact_mod_cast hdown
  rw [round4R, abs_le]
  constructor <;> [linarith; linarith]

theorem generateVector_abs_le (label : String) (ev : RawEvent)
    (h : 0 < normSq label ev) : ∀ y ∈ generateVector label ev, |y| ≤ 1 := by
  intro y hy
  have hgen : generateVector label ev =
      List.map (fun x => round4R (((x : ℚ) : ℝ) / Real.sqrt ((normSq label ev : ℚ) : ℝ)))
        (mixedVector label ev) := by
    unfold generateVector
    rw [if_pos h]
  rw [hgen] at hy
  obtain ⟨q, hq, rfl⟩ := List.mem_map.mp hy
  apply abs_round4R_le_one
  have hq2 : q * q ≤ normSq label ev := sq_le_sumSq (mixedVector label ev) q hq
  have hq2R : ((q : ℝ)) ^ 2 ≤ ((normSq label ev : ℚ) : ℝ) := by
    rw [sq]
    exact_mod_cast hq2
  have hSR : (0 : ℝ) < ((normSq label ev : ℚ) : ℝ) := by exact_mod_cast h
  have habs : |(q : ℝ)| ≤ Real.sqrt ((normSq label ev : ℚ) : ℝ) := Real.abs_le_sqrt hq2R
  have hsqrtpos : (0 : ℝ) < Real.sqrt ((normSq label ev : ℚ) : ℝ) :=
    Real.sqrt_pos.mpr hSR
  rw [abs_div, abs_of_nonneg (Real.sqrt_nonneg _)]
  exact div_le_one_of_le₀ habs (le_of_lt hsqrtpos)

/-- The concrete Math.random realization used in the counterexample: every
u1 draw is exp(-1/2) and every u2 draw is 1/2, making each Box-Muller sample
equal to -1 and each added noise term equal to -sqrt 2. -/
noncomputable def badRand : ℕ → ℝ := fun n =>
  if n % 2 = 0 then Real.exp (-(1 : ℝ) / 2) else 1 / 2

theorem badRand_valid : ValidRandStream badRand := by
  intro n
  unfold badRand
  split
  · exact ⟨le_of_lt (Real.exp_pos _), by rw [Real.exp_lt_one_iff]; norm_num⟩
  · norm_num

theorem badRand_even (i : ℕ) : badRand (2 * i) = Real.exp (-(1 : ℝ) / 2) := by
  have h : (2 * i) % 2 = 0 := by omega
  simp [badRand, h]

theorem badRand_odd (i : ℕ) : badRand (2 * i + 1) = 1 / 2 := by
  have h : ¬ (2 * i + 1) % 2 = 0 := by omega
  simp [badRand, h]

theorem gaussian_badRand :
    gaussianNoise 0 (Real.sqrt 2 / 1) (Real.exp (-(1 : ℝ) / 2)) (1 / 2) =
      -(Real.sqrt 2) := by
  unfold gaussianNoise
  rw [Real.log_exp]
  have h1 : (-2 : ℝ) * (-(1 : ℝ) / 2) = 1 := by norm_num
  rw [h1, Real.sqrt_one]
  have h2 : 2 * Real.pi * ((1 : ℝ) / 2) = Real.pi := by ring
  rw [h2, Real.cos_pi]
  ring

theorem perturbGo_badRand (v : List ℝ) :
    ∀ i, perturbGo badRand (Real.sqrt 2 / 1) i v =
      v.map (fun x => round4R (x - Real.sqrt 2)) := by
  induction v with
  | nil => intro i; simp [perturbGo]
  | cons x xs ih =>
    intro i
    have hnoise :
        x + gaussianNoise 0 (Real.sqrt 2 / 1) (badRand (2 * i)) (badRand (2 * i + 1)) =
          x - Real.sqrt 2 := by
      rw [badRand_even i, badRand_odd i, gaussian_badRand]
      ring
    simp only [perturbGo, List.map_cons, ih (i + 1), hnoise]

theorem perturbVector_badRand (v : List ℝ) :
    perturbVector v badRand = v.map (fun x => round4R (x - Real.sqrt 2)) :=
  perturbGo_badRand v 0

theorem le_sum_of_forall_le (l : List ℝ) (c : ℝ) (h : ∀ x ∈ l, c ≤ x) :
    (l.length : ℝ) * c ≤ l.sum := by
  induction l with
  | nil => simp
  | cons a t ih =>
    have ha := h a (List.mem_cons_self a t)
    have ht := ih (fun x hx => h x (List.mem_cons_of_mem a hx))
    simp only [List.length_cons, List.sum_cons]
    push_cast
    nlinarith

theorem sqrt_two_lb : (14101 / 10000 : ℝ) ≤ Real.sqrt 2 := by
  rw [show (14101 / 10000 : ℝ) = (14101 / 10000 : ℝ) from rfl]
  have h := Real.le_sqrt (by norm_num : (0 : ℝ) ≤ 14101 / 10000) (by norm_num : (0 : ℝ) ≤ 2)
  exact h.mpr (by norm_num)

/-- After the Gaussian shift by -sqrt 2 and quantization, a vector of 128
entries each of absolute value at most 1 has L2 norm far above 1.01. -/
theorem perturbed_norm_big (v : List ℝ) (hlen : v.length = 128)
    (hb : ∀ x ∈ v, |x| ≤ 1) :
    ¬ |Real.sqrt (l2normSq (v.map (fun x => round4R (x - Real.sqrt 2)))) - 1| ≤
      1 / 100 := by
  have hy : ∀ y ∈ v.map (fun x => round4R (x - Real.sqrt 2)), y ≤ -(41 / 100 : ℝ) := by
    intro y hyw
    obtain ⟨x, hx, rfl⟩ := List.mem_map.mp hyw
    have h1 := round4R_le (x - Real.sqrt 2)
    have h2 := (abs_le.mp (hb x hx)).2
    have h3 := sqrt_two_lb
    linarith
  have hsq : ∀ t ∈ (v.map (fun x => round4R (x - Real.sqrt 2))).map (fun y => y ^ 2),
      (41 / 100 : ℝ) ^ 2 ≤ t := by
    intro t ht
    obtain ⟨y, hyw, rfl⟩ := List.mem_map.mp ht
    have := hy y hyw
    nlinarith
  have hsum :
      (128 : ℝ) * (41 / 100) ^ 2 ≤
        l2normSq (v.map (fun x => round4R (x - Real.sqrt 2))) := by
    have hlen2 :
        ((v.map (fun x => round4R (x - Real.sqrt 2))).map (fun y => y ^ 2)).length = 128 := by
      simp [hlen]
    have := le_sum_of_forall_le _ _ hsq
    rw [hlen2] at this
    simpa [l2normSq] using this
  have hgt : (101 / 100 : ℝ) < Real.sqrt (l2normSq (v.map (fun x => round4R (x - Real.sqrt 2)))) := by
    rw [Real.lt_sqrt (by norm_num)]
    nlinarith
  intro habs
  have := (abs_le.mp habs).2
  linarith

def evPw : RawEvent :=
  ⟨"user_int", { action := some "input", target := some pwTarget, value := some "hunter2" }, ""⟩

def evClickPw : RawEvent :=
  ⟨"user_int", { action := some "click", target := some pwTarget }, ""⟩

theorem evPw_normSq_pos : 0 < normSq "authentication" evPw := by decide

/-- C4 counterexample.  Two failures of the claim on concrete inputs: (a) a
raw click on a password input is classified unknown, not authentication —
only input/paste actions reach the authentication rule — so its Secure Event
does not carry intentLabel authentication; (b) for an input event on a
password field there is an admissible realization of the randomness (all u1
draws equal exp(-1/2), all u2 draws equal 1/2, every draw in [0,1)) under
which every dimension is shifted by -sqrt 2, and the resulting intentVector
has L2 norm greater than 1.01: perturbVector adds unbounded Gaussian noise
with sigma = sqrt 2 after normalization and never re-normalizes. -/
theorem password_pipeline_counterexample :
    ValidRandStream badRand ∧
    (processIntent id (fun _ => false) id evClickPw (fun _ => 0)).intentLabel = "unknown" ∧
    evPw.eventType = "user_int" ∧ evPw.payload.action = some "input" ∧
    inputTypeOf evPw = "password" ∧
    ¬ |Real.sqrt (l2normSq
        ((processIntent id (fun _ => false) id evPw badRand).intentVector)) - 1| ≤
      1 / 100 := by
  refine ⟨badRand_valid, rfl, rfl, rfl, rfl, ?_⟩
  have hvec :
      (processIntent id (fun _ => false) id evPw badRand).intentVector =
        perturbVector (generateVector "authentication" evPw) badRand := rfl
  rw [hvec, perturbVector_badRand]
  exact perturbed_norm_big (generateVector "authentication" evPw)
    (generateVector_length _ _)
    (generateVector_abs_le _ _ evPw_normSq_pos)

/-- Helper: scrubbing rewrites only the text-carrying fields, so the fields
classification reads are preserved. -/
theorem scrubEvent_preserves (scrub : String → String) (hasPii : String → Bool)
    (hashUrl : String → String) (ev : RawEvent) :
    (scrubEvent scrub hasPii hashUrl ev).eventType = ev.eventType ∧
    (scrubEvent scrub hasPii hashUrl ev).payload.action = ev.payload.action ∧
    inputTypeOf (scrubEvent scrub hasPii hashUrl ev) = inputTypeOf ev := by
  refine ⟨rfl, rfl, ?_⟩
  unfold inputTypeOf scrubEvent
  rcases ev.payload.target with _ | t <;> rfl

/-- C4 amended: for every user_int raw event whose action is input or paste
on a password input, and for every realization of the randomness, the
pipeline output has intentLabel authentication and intentConfidence 0.85, and
its intentVector is exactly the Gaussian-perturbed (sigma = sqrt 2),
4-decimal-quantized encoder vector — with no renormalization, so its L2 norm
is not guaranteed to lie within 0.01 of 1.0 (the counterexample exhibits a
realization where it exceeds 1.01). -/
theorem password_pipeline_amended (scrub : String → String) (hasPii : String → Bool)
    (hashUrl : String → String) (ev : RawEvent) (rand : ℕ → ℝ)
    (he : ev.eventType = "user_int")
    (ha : ev.payload.action = some "input" ∨ ev.payload.action = some "paste")
    (hp : inputTypeOf ev = "password") :
    (processIntent scrub hasPii hashUrl ev rand).intentLabel = "authentication" ∧
    (processIntent scrub hasPii hashUrl ev rand).intentConfidence = 0.85 ∧
    (processIntent scrub hasPii hashUrl ev rand).intentVector =
      perturbVector
        (generateVector "authentication" (scrubEvent scrub hasPii hashUrl ev)) rand := by
  obtain ⟨pe, pa, pt⟩ := scrubEvent_preserves scrub hasPii hashUrl ev
  have hcls : classify (scrubEvent scrub hasPii hashUrl ev) = ("authentication", 0.85) := by
    apply classify_auth_input
    · rw [pe, he]
    · rw [pa]; exact ha
    · rw [pt, hp]; left; rfl
  refine ⟨?_, ?_, ?_⟩
  · simp [processIntent, hcls]
  · simp only [processIntent, hcls]
    show GhostSpec.round2 0.85 = 0.85
    norm_num [GhostSpec.round2, GhostSpec.jsRound]
  · simp [processIntent, hcls]

/-- Witness for password_pipeline_amended at the concrete password input
event with the all-zero randomness stream. -/
theorem password_pipeline_amended_witness :
    (evPw.eventType = "user_int" ∧ evPw.payload.action = some "input" ∧
      inputTypeOf evPw = "password") ∧
    (processIntent id (fun _ => false) id evPw (fun _ => 0)).intentLabel =
      "authentication" ∧
    (processIntent id (fun _ => false) id evPw (fun _ => 0)).intentConfidence = 0.85 :=
  ⟨⟨rfl, rfl, rfl⟩,
    (password_pipeline_amended id (fun _ => false) id evPw (fun _ => 0)
      rfl (Or.inl rfl) rfl).1,
    (password_pipeline_amended id (fun _ => false) id evPw (fun _ => 0)
      rfl (Or.inl rfl) rfl).2.1⟩

end Encoder

/-! ## Fingerprint: DifferentialPrivacy.generateSessionFingerprint.  The
HMAC-SHA256 primitive (WebCrypto subtle.sign) is an oracle parameter
producing the signature bytes; the embedding covers the message construction
deviceId:userId:floor(sessionStart/900000), the keying by deviceId, and the
lowercase-hex rendering b.toString(16).padStart(2,'0') joined over the
bytes. -/

namespace Fingerprint

/-- Fuel-driven base-b digit extraction, least significant digit first
(structural recursion so that concrete instances compute). -/
def digitsGo (base : ℕ) : ℕ → ℕ → List ℕ
  | 0, _ => []
  | _ + 1, 0 => []
  | fuel + 1, n => n % base :: digitsGo base fuel (n / base)

def decDigitChar (d : ℕ) : Char :=
  [ '0', '1', '2', '3', '4', '5', '6', '7', '8', '9'].getD d '0'

def hexDigitChar (d : ℕ) : Char :=
  if d < 10 then decDigitChar d else [ 'a', 'b', 'c', 'd', 'e', 'f'].getD (d - 10) '0'

/-- Decimal rendering of a natural number, as the JavaScript template string
interpolation of an integer produces it. -/
def natToString (n : ℕ) : String :=
  if n = 0 then "0" else String.mk (((digitsGo 10 n n).reverse).map decDigitChar)

/-- Hex rendering b.toString(16): lowercase, no leading zeros. -/
def hexChars (n : ℕ) : List Char :=
  if n = 0 then ['0'] else ((digitsGo 16 n n).reverse).map hexDigitChar

/-- padStart(2, '0') at character-list level. -/
def pad2 (cs : List Char) : List Char :=
  if cs.length < 2 then List.replicate (2 - cs.length) '0' ++ cs else cs

/-- The byte-array-to-hex rendering of generateSessionFingerprint:
map(b => b.toString(16).padStart(2, '0')).join(''). -/
def bytesToHex (bs : List ℕ) : String :=
  String.mk ((bs.map (fun b => pad2 (hexChars b))).flatten)

/-- The HMAC oracle: key and message to signature bytes. -/
abbrev HmacOracle := String → String → List ℕ

/-- The message generateSessionFingerprint signs: colon-separated. -/
def fingerprintData (deviceId userId : String) (sessionStart : ℕ) : String :=
  deviceId ++ ":" ++ userId ++ ":" ++ natToString (sessionStart / 900000)

/-- generateSessionFingerprint from differential-privacy.ts: HMAC keyed by
deviceId over deviceId:userId:floor(sessionStart/900000), rendered as
lowercase hex. -/
def generateSessionFingerprint (hmac : HmacOracle) (deviceId userId : String)
    (sessionStart : ℕ) : String :=
  bytesToHex (hmac deviceId (fingerprintData deviceId userId sessionStart))

/-- Modelled from the spec: the claim's message uses pipe separators,
deviceId|userId|floor(sessionStart_ms/900000). -/
def specFingerprintMessage (deviceId userId : String) (sessionStart : ℕ) : String :=
  deviceId ++ "|" ++ userId ++ "|" ++ natToString (sessionStart / 900000)

/-- A sample keyed-hash oracle that exposes the message bytes, separating
the two message formats. -/
def hmacBytes : HmacOracle := fun _ m => m.data.map Char.toNat

/-- C8 counterexample: the code signs the colon-separated message
deviceId:userId:bucket, not the pipe-separated deviceId|userId|bucket of the
claim; the two messages differ, and under a keyed hash that distinguishes
them (as HMAC-SHA256 does, being collision-free in practice) the fingerprints
differ. -/
theorem fingerprint_message_counterexample :
    fingerprintData "d" "u" 0 = "d:u:0" ∧
    specFingerprintMessage "d" "u" 0 = "d|u|0" ∧
    fingerprintData "d" "u" 0 ≠ specFingerprintMessage "d" "u" 0 ∧
    generateSessionFingerprint hmacBytes "d" "u" 0 ≠
      bytesToHex (hmacBytes "d" (specFingerprintMessage "d" "u" 0)) := by
  refine ⟨rfl, rfl, by decide, by decide⟩

theorem digitsGo_lt_base (base : ℕ) (hb : 2 ≤ base) :
    ∀ fuel n, ∀ d ∈ digitsGo base fuel n, d < base := by
  intro fuel
  induction fuel with
  | zero => intro n d hd; cases hd
  | succ fuel ih =>
    intro n d hd
    match n with
    | 0 => cases hd
    | m + 1 =>
      rcases List.mem_cons.mp hd with rfl | h
      · exact Nat.mod_lt _ (by omega)
      · exact ih _ _ h

/-- Value reconstruction from the digit list. -/
def ofDigits (base : ℕ) : List ℕ → ℕ
  | [] => 0
  | d :: ds => d + base * ofDigits base ds

theorem digitsGo_spec (base : ℕ) (hb : 2 ≤ base) :
    ∀ fuel n, n ≤ fuel → ofDigits base (digitsGo base fuel n) = n := by
  intro fuel
  induction fuel with
  | zero => intro n hn; interval_cases n; rfl
  | succ fuel ih =>
    intro n hn
    match n with
    | 0 => rfl
    | m + 1 =>
      have hdiv : (m + 1) / base ≤ fuel := by
        have h1 : (m + 1) / base < m + 1 := Nat.div_lt_self (by omega) (by omega)
        omega
      show ofDigits base ((m + 1) % base :: digitsGo base fuel ((m + 1) / base)) = m + 1
      rw [ofDigits, ih _ hdiv]
      exact Nat.mod_add_div (m + 1) base

theorem decDigitChar_inj : ∀ d₁ < 10, ∀ d₂ < 10,
    decDigitChar d₁ = decDigitChar d₂ → d₁ = d₂ := by decide

theorem hexDigitChar_inj : ∀ d₁ < 16, ∀ d₂ < 16,
    hexDigitChar d₁ = hexDigitChar d₂ → d₁ = d₂ := by decide

theorem map_decDigitChar_inj (l₁ l₂ : List ℕ) (h₁ : ∀ d ∈ l₁, d < 10)
    (h₂ : ∀ d ∈ l₂, d < 10) (h : l₁.map decDigitChar = l₂.map decDigitChar) :
    l₁ = l₂ := by
  induction l₁ generalizing l₂ with
  | nil => cases l₂ with
    | nil => rfl
    | cons b t => simp at h
  | cons a t ih =>
    cases l₂ with
    | nil => simp at h
    | cons b t₂ =>
      simp only [List.map_cons, List.cons.injEq] at h
      have ha := decDigitChar_inj a (h₁ a (by simp)) b (h₂ b (by simp)) h.1
      have ht := ih t₂ (fun d hd => h₁ d (List.mem_cons_of_mem a hd))
        (fun d hd => h₂ d (List.mem_cons_of_mem b hd)) h.2
      rw [ha, ht]

theorem natToString_inj : Function.Injective natToString := by
  intro m n h
  unfold natToString at h
  by_cases hm : m = 0 <;> by_cases hn : n = 0
  · omega
  · rw [if_pos hm, if_neg hn] at h
    have hdata : ('0' :: []) = ((digitsGo 10 n n).reverse).map decDigitChar := by
      have := congrArg String.data h
      simpa using this
    have hdig : ((9 : ℕ) :: []) ≠ (digitsGo 10 n n).reverse ∨ True := Or.inr trivial
    have : ofDigits 10 (digitsGo 10 n n) = n := digitsGo_spec 10 (by omega) n n le_rfl
    have hlist : [(0 : ℕ)] = (digitsGo 10 n n).reverse := by
      apply map_decDigitChar_inj
      · intro d hd; simp at hd; omega
      · intro d hd
        exact digitsGo_lt_base 10 (by omega) n n d (List.mem_reverse.mp hd)
      · simpa using hdata
    have hrev : digitsGo 10 n n = [0] := by
      have := congrArg List.reverse hlist
      simpa using this.symm
    rw [hrev] at this
    simp [ofDigits] at this
    omega
  · rw [if_neg hm, if_pos hn] at h
    have hdata : ((digitsGo 10 m m).reverse).map decDigitChar = ('0' :: []) := by
      have := congrArg String.data h
      simpa using this
    have hspec : ofDigits 10 (digitsGo 10 m m) = m := digitsGo_spec 10 (by omega) m m le_rfl
    have hlist : (digitsGo 10 m m).reverse = [(0 : ℕ)] := by
      apply map_decDigitChar_inj
      · intro d hd
        exact digitsGo_lt_base 10 (by omega) m m d (List.mem_reverse.mp hd)
      · intro d hd; simp at hd; omega
      · simpa using hdata
    have hrev : digitsGo 10 m m = [0] := by
      have := congrArg List.reverse hlist
      simpa using this
    rw [hrev] at hspec
    simp [ofDigits] at hspec
    omega
  · rw [if_neg hm, if_neg hn] at h
    have hdata : ((digitsGo 10 m m).reverse).map decDigitChar =
        ((digitsGo 10 n n).reverse).map decDigitChar := by
      have := congrArg String.data h
      simpa using this
    have hlist := map_decDigitChar_inj _ _
      (fun d hd => digitsGo_lt_base 10 (by omega) m m d (List.mem_reverse.mp hd))
      (fun d hd => digitsGo_lt_base 10 (by omega) n n d (List.mem_reverse.mp hd))
      hdata
    have hdig : digitsGo 10 m m = digitsGo 10 n n := by
      have := congrArg List.reverse hlist
      simpa using this
    have h1 := digitsGo_spec 10 (by omega) m m le_rfl
    have h2 := digitsGo_spec 10 (by omega) n n le_rfl
    rw [hdig, h2] at h1
    exact h1.symm

end Fingerprint

namespace Fingerprint

theorem digitsGo_zero (base : ℕ) (fuel : ℕ) : digitsGo base fuel 0 = [] := by
  cases fuel <;> rfl

theorem digitsGo_small (fuel n : ℕ) (h1 : 0 < n) (h2 : n < 16) (h3 : n ≤ fuel) :
    digitsGo 16 fuel n = [n] := by
  match fuel, n with
  | 0, n => omega
  | fuel + 1, 0 => omega
  | fuel + 1, m + 1 =>
    show (m + 1) % 16 :: digitsGo 16 fuel ((m + 1) / 16) = [m + 1]
    rw [Nat.mod_eq_of_lt h2, Nat.div_eq_of_lt h2, digitsGo_zero]

theorem digitsGo_byte (fuel n : ℕ) (h1 : 16 ≤ n) (h2 : n < 256) (h3 : n ≤ fuel) :
    digitsGo 16 fuel n = [n % 16, n / 16] := by
  match fuel, n with
  | 0, n => omega
  | fuel + 1, 0 => omega
  | fuel + 1, m + 1 =>
    show (m + 1) % 16 :: digitsGo 16 fuel ((m + 1) / 16) = [(m + 1) % 16, (m + 1) / 16]
    have hq1 : 0 < (m + 1) / 16 := Nat.div_pos h1 (by omega)
    have hq2 : (m + 1) / 16 < 16 := by omega
    have hq3 : (m + 1) / 16 ≤ fuel := by
      have := Nat.div_lt_self (show 0 < m + 1 by omega) (show 1 < 16 by omega)
      omega
    rw [digitsGo_small fuel _ hq1 hq2 hq3]

/-- Normal form of the padded hex pair of a byte. -/
theorem pad2_hexChars_byte (b : ℕ) (hb : b < 256) :
    pad2 (hexChars b) =
      if b < 16 then ['0', hexDigitChar b] else [hexDigitChar (b / 16), hexDigitChar (b % 16)] := by
  by_cases hsmall : b < 16
  · rw [if_pos hsmall]
    by_cases hz : b = 0
    · subst hz; rfl
    · unfold hexChars
      rw [if_neg hz, digitsGo_small b b (by omega) hsmall le_rfl]
      rfl
  · rw [if_neg hsmall]
    unfold hexChars
    have hz : b ≠ 0 := by omega
    rw [if_neg hz, digitsGo_byte b b (by omega) hb le_rfl]
    rfl

theorem pad2_hexChars_inj (b₁ b₂ : ℕ) (h₁ : b₁ < 256) (h₂ : b₂ < 256)
    (h : pad2 (hexChars b₁) = pad2 (hexChars b₂)) : b₁ = b₂ := by
  rw [pad2_hexChars_byte b₁ h₁, pad2_hexChars_byte b₂ h₂] at h
  by_cases hs₁ : b₁ < 16 <;> by_cases hs₂ : b₂ < 16
  · rw [if_pos hs₁, if_pos hs₂] at h
    injection h with hhd htl
    injection htl with hsnd
    exact hexDigitChar_inj b₁ hs₁ b₂ hs₂ hsnd
  · rw [if_pos hs₁, if_neg hs₂] at h
    injection h with hhd htl
    have hq : b₂ / 16 < 16 := by omega
    have h0 : (0 : ℕ) = b₂ / 16 := hexDigitChar_inj 0 (by omega) (b₂ / 16) hq hhd
    omega
  · rw [if_neg hs₁, if_pos hs₂] at h
    injection h with hhd htl
    have hq : b₁ / 16 < 16 := by omega
    have h0 : b₁ / 16 = 0 := hexDigitChar_inj (b₁ / 16) hq 0 (by omega) hhd
    omega
  · rw [if_neg hs₁, if_neg hs₂] at h
    injection h with hhd htl
    injection htl with hsnd
    have hd : b₁ / 16 = b₂ / 16 :=
      hexDigitChar_inj (b₁ / 16) (by omega) (b₂ / 16) (by omega) hhd
    have hm : b₁ % 16 = b₂ % 16 :=
      hexDigitChar_inj (b₁ % 16) (by omega) (b₂ % 16) (by omega) hsnd
    omega

theorem pad2_hexChars_length (b : ℕ) (hb : b < 256) :
    (pad2 (hexChars b)).length = 2 := by
  rw [pad2_hexChars_byte b hb]
  by_cases hs : b < 16
  · rw [if_pos hs]; rfl
  · rw [if_neg hs]; rfl

theorem bytesToHex_inj (bs₁ bs₂ : List ℕ) (h₁ : ∀ b ∈ bs₁, b < 256)
    (h₂ : ∀ b ∈ bs₂, b < 256) (h : bytesToHex bs₁ = bytesToHex bs₂) : bs₁ = bs₂ := by
  unfold bytesToHex at h
  have hdata : (bs₁.map (fun b => pad2 (hexChars b))).flatten =
      (bs₂.map (fun b => pad2 (hexChars b))).flatten := by
    have := congrArg String.data h
    simpa using this
  clear h
  induction bs₁ generalizing bs₂ with
  | nil =>
    cases bs₂ with
    | nil => rfl
    | cons b t =>
      exfalso
      have hlen := congrArg List.length hdata
      simp only [List.map_nil, List.flatten_nil, List.length_nil, List.map_cons,
        List.flatten_cons, List.length_append,
        pad2_hexChars_length b (h₂ b (by simp))] at hlen
      omega
  | cons a t ih =>
    cases bs₂ with
    | nil =>
      exfalso
      have hlen := congrArg List.length hdata
      simp only [List.map_nil, List.flatten_nil, List.length_nil, List.map_cons,
        List.flatten_cons, List.length_append,
        pad2_hexChars_length a (h₁ a (by simp))] at hlen
      omega
    | cons b t₂ =>
      simp only [List.map_cons, List.flatten_cons] at hdata
      have hlen : (pad2 (hexChars a)).length = (pad2 (hexChars b)).length := by
        rw [pad2_hexChars_length a (h₁ a (by simp)),
          pad2_hexChars_length b (h₂ b (by simp))]
      obtain ⟨hhead, htail⟩ := List.append_inj hdata hlen
      have hab := pad2_hexChars_inj a b (h₁ a (by simp)) (h₂ b (by simp)) hhead
      have ht := ih t₂ (fun x hx => h₁ x (List.mem_cons_of_mem a hx))
        (fun x hx => h₂ x (List.mem_cons_of_mem b hx)) htail
      rw [hab, ht]

/-- C8 amended: the session fingerprint is the lowercase-hex rendering of
the HMAC keyed by deviceId over the colon-separated message
deviceId:userId:floor(sessionStart_ms/900000) (not the pipe-separated
message of the claim).  For fixed deviceId and userId, two fingerprints in
the same 15-minute bucket are identical; and a fingerprint collision across
different buckets would be an HMAC collision on two distinct messages, which
collision-freeness of HMAC-SHA256 rules out in practice — so cross-bucket
fingerprints are distinct exactly when the keyed hash distinguishes the two
bucket messages. -/
theorem fingerprint_amended (hmac : HmacOracle) (d u : String) :
    (∀ t : ℕ, generateSessionFingerprint hmac d u t =
      bytesToHex (hmac d (d ++ ":" ++ u ++ ":" ++ natToString (t / 900000)))) ∧
    (∀ t₁ t₂ : ℕ, t₁ / 900000 = t₂ / 900000 →
      generateSessionFingerprint hmac d u t₁ = generateSessionFingerprint hmac d u t₂) ∧
    (∀ t₁ t₂ : ℕ, (∀ m, ∀ b ∈ hmac d m, b < 256) →
      t₁ / 900000 ≠ t₂ / 900000 →
      generateSessionFingerprint hmac d u t₁ = generateSessionFingerprint hmac d u t₂ →
      hmac d (fingerprintData d u t₁) = hmac d (fingerprintData d u t₂) ∧
      fingerprintData d u t₁ ≠ fingerprintData d u t₂) := by
  refine ⟨fun t => rfl, ?_, ?_⟩
  · intro t₁ t₂ hb
    simp [generateSessionFingerprint, fingerprintData, hb]
  · intro t₁ t₂ hbytes hb hfp
    constructor
    · exact bytesToHex_inj _ _ (hbytes _) (hbytes _) hfp
    · intro heq
      apply hb
      apply natToString_inj
      have hdata := congrArg String.data heq
      simp only [fingerprintData, String.data_append, List.append_assoc] at hdata
      have h1 := List.append_cancel_left hdata
      have h2 := List.append_cancel_left h1
      have h3 := List.append_cancel_left h2
      have h4 := List.append_cancel_left h3
      exact String.ext h4

/-- A signature oracle producing no bytes, under which all fingerprints
collide, exercising the collision branch of fingerprint_amended. -/
def hmacZero : HmacOracle := fun _ _ => []

/-- Witness for fingerprint_amended: same-bucket stability at 5 ms and 7 ms,
and the cross-bucket collision branch at buckets 0 and 1 under hmacZero. -/
theorem fingerprint_amended_witness :
    generateSessionFingerprint hmacZero "d" "u" 5 =
      generateSessionFingerprint hmacZero "d" "u" 7 ∧
    (hmacZero "d" (fingerprintData "d" "u" 0) =
        hmacZero "d" (fingerprintData "d" "u" 900000) ∧
      fingerprintData "d" "u" 0 ≠ fingerprintData "d" "u" 900000) :=
  ⟨(fingerprint_amended hmacZero "d" "u").2.1 5 7 (by decide),
    (fingerprint_amended hmacZero "d" "u").2.2 0 900000
      (fun m b hb => by cases hb) (by decide) rfl⟩

end Fingerprint

/-! ## Pii: the PiiScrubber.  The regex engine is external: detect is
embedded as removeOverlaps applied to the raw match list the seven pattern
regexes produce (each raw match carries its span within the text).  scrub is
the end-to-start splicing loop over the detected entities sorted by
descending start; the session-scoped counter table behind getReplacement is
an oracle mapping an entity to its replacement token text. -/

namespace Pii

/-- A detected PII entity; endPos is the source field named end (a reserved
word in Lean). -/
structure PiiEntity where
  type : String
  value : String
  start : ℕ
  endPos : ℕ
  deriving DecidableEq, Repr

/-- Stable insertion step for the removeOverlaps sort: ascending start,
ties broken by longer match first ((a, b) => a.start - b.start or
b.end - a.end). -/
def entInsertAsc (e : PiiEntity) : List PiiEntity → List PiiEntity
  | [] => [e]
  | f :: fs =>
    if e.start < f.start ∨ (e.start = f.start ∧ f.endPos ≤ e.endPos) then e :: f :: fs
    else f :: entInsertAsc e fs

def entSortAsc (l : List PiiEntity) : List PiiEntity := l.foldr entInsertAsc []

/-- Stable insertion step for the scrub sort: descending start
((a, b) => b.start - a.start). -/
def entInsertDesc (e : PiiEntity) : List PiiEntity → List PiiEntity
  | [] => [e]
  | f :: fs => if f.start ≤ e.start then e :: f :: fs else f :: entInsertDesc e fs

def entSortDesc (l : List PiiEntity) : List PiiEntity := l.foldr entInsertDesc []

/-- The overlap-elimination loop of removeOverlaps, with the result array
kept reversed (head = most recently kept entity): push when disjoint,
replace the previous when strictly longer, else drop. -/
def rgo : List PiiEntity → List PiiEntity → List PiiEntity
  | acc, [] => acc.reverse
  | [], e :: rest => rgo [e] rest
  | prev :: accT, e :: rest =>
    if prev.endPos ≤ e.start then rgo (e :: prev :: accT) rest
    else if (prev.endPos : ℤ) - prev.start < (e.endPos : ℤ) - e.start then
      rgo (e :: accT) rest
    else rgo (prev :: accT) rest

/-- removeOverlaps from pii-scrubber.ts. -/
def removeOverlaps (entities : List PiiEntity) : List PiiEntity :=
  if entities.length ≤ 1 then entities
  else
    match entSortAsc entities with
    | [] => []
    | f :: rest => rgo [f] rest

/-- detect from pii-scrubber.ts: the per-pattern regex exec loops produce the
raw match list (the oracle input); overlapping entities are then removed
keeping the longest. -/
def detect (rawMatches : List PiiEntity) : List PiiEntity := removeOverlaps rawMatches

/-- One splice of the scrub loop:
result.slice(0, start) + replacement + result.slice(end). -/
def splice (text : List Char) (e : PiiEntity) (rep : List Char) : List Char :=
  text.take e.start ++ rep ++ text.drop e.endPos

def scrubGo (repl : PiiEntity → List Char) : List Char → List PiiEntity → List Char
  | text, [] => text
  | text, e :: rest => scrubGo repl (splice text e (repl e)) rest

/-- scrub from pii-scrubber.ts over the character list of the text: empty
text is returned unchanged, no detected entities return the text unchanged,
otherwise the entities are spliced from the end to the start. -/
def scrub (text : List Char) (rawMatches : List PiiEntity)
    (repl : PiiEntity → List Char) : List Char :=
  if text = [] then text
  else
    let entities := detect rawMatches
    if entities = [] then text
    else scrubGo repl text (entSortDesc entities)

/-- The expected rendering: the unchanged text segments interleaved with the
replacement tokens of the detected spans, in ascending order. -/
def renderFrom (repl : PiiEntity → List Char) (k : ℕ) (t : List Char) :
    List PiiEntity → List Char
  | [] => t.drop k
  | e :: es => (t.drop k).take (e.start - k) ++ repl e ++ renderFrom repl e.endPos t es

def renderAsc (repl : PiiEntity → List Char) (t : List Char) :
    List PiiEntity → List Char
  | [] => t
  | e :: es => t.take e.start ++ repl e ++ renderFrom repl e.endPos t es

/-- Ascending-start order (weak, with the tie direction of the sort). -/
def ascLE (a b : PiiEntity) : Prop := a.start ≤ b.start

/-- Disjoint, strictly ordered spans. -/
def ordered (a b : PiiEntity) : Prop := a.endPos ≤ b.start ∧ a.start < b.start

instance : DecidablePred (fun p : PiiEntity × PiiEntity => ordered p.1 p.2) :=
  fun p => by unfold ordered; infer_instance

theorem mem_entInsertAsc (e x : PiiEntity) (l : List PiiEntity) :
    x ∈ entInsertAsc e l ↔ x = e ∨ x ∈ l := by
  induction l with
  | nil => simp [entInsertAsc]
  | cons f fs ih =>
    unfold entInsertAsc
    split
    · simp
    · simp only [List.mem_cons, ih]
      tauto

theorem pairwise_entInsertAsc (e : PiiEntity) (l : List PiiEntity)
    (h : List.Pairwise ascLE l) : List.Pairwise ascLE (entInsertAsc e l) := by
  induction l with
  | nil => simp [entInsertAsc]
  | cons f fs ih =>
    unfold entInsertAsc
    split
    · rename_i hcond
      have hef : e.start ≤ f.start := by omega
      refine List.Pairwise.cons ?_ h
      intro x hx
      rcases List.mem_cons.mp hx with rfl | hx
      · exact hef
      · exact le_trans hef ((List.pairwise_cons.mp h).1 x hx)
    · rename_i hcond
      have hfe : f.start ≤ e.start := by omega
      obtain ⟨hf, hfs⟩ := List.pairwise_cons.mp h
      refine List.Pairwise.cons ?_ (ih hfs)
      intro x hx
      rcases (mem_entInsertAsc e x fs).mp hx with rfl | hx
      · exact hfe
      · exact hf x hx

theorem pairwise_entSortAsc (l : List PiiEntity) :
    List.Pairwise ascLE (entSortAsc l) := by
  induction l with
  | nil => simp [entSortAsc]
  | cons a t ih => exact pairwise_entInsertAsc a (entSortAsc t) ih

theorem mem_entSortAsc (l : List PiiEntity) (x : PiiEntity) :
    x ∈ entSortAsc l ↔ x ∈ l := by
  induction l with
  | nil => simp [entSortAsc]
  | cons a t ih =>
    show x ∈ entInsertAsc a (entSortAsc t) ↔ _
    rw [mem_entInsertAsc]
    simp [ih]

theorem length_entInsertAsc (e : PiiEntity) (l : List PiiEntity) :
    (entInsertAsc e l).length = l.length + 1 := by
  induction l with
  | nil => rfl
  | cons f fs ih =>
    unfold entInsertAsc
    split
    · simp
    · simp [ih]

theorem length_entSortAsc (l : List PiiEntity) :
    (entSortAsc l).length = l.length := by
  induction l with
  | nil => rfl
  | cons a t ih =>
    show (entInsertAsc a (entSortAsc t)).length = _
    rw [length_entInsertAsc, ih]
    rfl

end Pii

namespace Pii

/-- Reversed-chain invariant of the rgo accumulator: later entries in the
list are earlier, disjoint spans. -/
def RevChain : List PiiEntity → Prop :=
  List.Pairwise (fun a b => b.endPos ≤ a.start ∧ b.start < a.start)

theorem rgo_ok (rest : List PiiEntity) :
    ∀ (p : PiiEntity) (accT : List PiiEntity),
      RevChain (p :: accT) →
      (∀ x ∈ p :: accT, x.start < x.endPos) →
      (∀ x ∈ rest, x.start < x.endPos) →
      List.Pairwise ascLE rest →
      (∀ x ∈ rest, p.start ≤ x.start) →
      List.Pairwise ordered (rgo (p :: accT) rest) ∧
      (∀ x ∈ rgo (p :: accT) rest, x ∈ p :: accT ∨ x ∈ rest) := by
  induction rest with
  | nil =>
    intro p accT hchain hbacc _ _ _
    constructor
    · show List.Pairwise ordered (p :: accT).reverse
      rw [List.pairwise_reverse]
      exact hchain.imp (fun hab => ⟨hab.1, hab.2⟩)
    · intro x hx
      exact Or.inl (List.mem_reverse.mp hx)
  | cons e rest ih =>
    intro p accT hchain hbacc hbrest hsorted hge
    obtain ⟨hsf, hsrest⟩ := List.pairwise_cons.mp hsorted
    have hbe : e.start < e.endPos := hbrest e (by simp)
    have hbp : p.start < p.endPos := hbacc p (by simp)
    have hpe : p.start ≤ e.start := hge e (by simp)
    have hbrest' : ∀ x ∈ rest, x.start < x.endPos :=
      fun x hx => hbrest x (List.mem_cons_of_mem e hx)
    show List.Pairwise ordered (rgo (p :: accT) (e :: rest)) ∧ _
    unfold rgo
    split
    · rename_i hpush
      have hchain' : RevChain (e :: p :: accT) := by
        refine List.Pairwise.cons ?_ hchain
        intro x hx
        rcases List.mem_cons.mp hx with rfl | hx
        · exact ⟨hpush, by omega⟩
        · have hq := (List.pairwise_cons.mp hchain).1 x hx
          exact ⟨by omega, by omega⟩
      have hbacc' : ∀ x ∈ e :: p :: accT, x.start < x.endPos := by
        intro x hx
        rcases List.mem_cons.mp hx with rfl | hx
        · exact hbe
        · exact hbacc x hx
      obtain ⟨h1, h2⟩ := ih e (p :: accT) hchain' hbacc' hbrest' hsrest hsf
      refine ⟨h1, ?_⟩
      intro x hx
      rcases h2 x hx with hx' | hx'
      · rcases List.mem_cons.mp hx' with rfl | hx'
        · exact Or.inr (by simp)
        · exact Or.inl hx'
      · exact Or.inr (List.mem_cons_of_mem e hx')
    · split
      · rename_i hnopush hlonger
        have hchain' : RevChain (e :: accT) := by
          refine List.Pairwise.cons ?_ (List.pairwise_cons.mp hchain).2
          intro x hx
          have hq := (List.pairwise_cons.mp hchain).1 x hx
          exact ⟨by omega, by omega⟩
        have hbacc' : ∀ x ∈ e :: accT, x.start < x.endPos := by
          intro x hx
          rcases List.mem_cons.mp hx with rfl | hx
          · exact hbe
          · exact hbacc x (List.mem_cons_of_mem p hx)
        have hge' : ∀ x ∈ rest, e.start ≤ x.start := hsf
        obtain ⟨h1, h2⟩ := ih e accT hchain' hbacc' hbrest' hsrest hge'
        refine ⟨h1, ?_⟩
        intro x hx
        rcases h2 x hx with hx' | hx'
        · rcases List.mem_cons.mp hx' with rfl | hx'
          · exact Or.inr (by simp)
          · exact Or.inl (List.mem_cons_of_mem p hx')
        · exact Or.inr (List.mem_cons_of_mem e hx')
      · rename_i hnopush hshort
        have hge' : ∀ x ∈ rest, p.start ≤ x.start :=
          fun x hx => le_trans hpe (hsf x hx)
        obtain ⟨h1, h2⟩ := ih p accT hchain hbacc hbrest' hsrest hge'
        refine ⟨h1, ?_⟩
        intro x hx
        rcases h2 x hx with hx' | hx'
        · exact Or.inl hx'
        · exact Or.inr (List.mem_cons_of_mem e hx')

theorem detect_ordered (n : ℕ) (raw : List PiiEntity)
    (hraw : ∀ e ∈ raw, e.start < e.endPos ∧ e.endPos ≤ n) :
    List.Pairwise ordered (detect raw) ∧
    (∀ e ∈ detect raw, e ∈ raw) := by
  unfold detect removeOverlaps
  split
  · rename_i hlen
    constructor
    · match raw, hlen with
      | [], _ => exact List.Pairwise.nil
      | [e], _ => exact List.pairwise_singleton _ _
    · intro e he; exact he
  · rename_i hlen
    match hs : entSortAsc raw with
    | [] =>
      exact ⟨List.Pairwise.nil, fun e he => absurd he (List.not_mem_nil e)⟩
    | f :: rest =>
      have hmem : ∀ x ∈ f :: rest, x ∈ raw := by
        intro x hx
        rw [← hs] at hx
        exact (mem_entSortAsc raw x).mp hx
      have hsorted := pairwise_entSortAsc raw
      rw [hs] at hsorted
      obtain ⟨hsf, hsrest⟩ := List.pairwise_cons.mp hsorted
      have hb : ∀ x ∈ f :: rest, x.start < x.endPos :=
        fun x hx => (hraw x (hmem x hx)).1
      obtain ⟨h1, h2⟩ := rgo_ok rest f []
        (List.pairwise_singleton _ _)
        (fun x hx => hb x (by simp at hx; subst hx; simp))
        (fun x hx => hb x (List.mem_cons_of_mem f hx))
        hsrest hsf
      refine ⟨h1, ?_⟩
      intro e he
      rcases h2 e he with he' | he'
      · rcases List.mem_cons.mp he' with rfl | he'
        · exact hmem e (by simp)
        · cases he'
      · exact hmem e (List.mem_cons_of_mem f he')

end Pii

namespace Pii

theorem scrubGo_append (repl : PiiEntity → List Char) (l₁ l₂ : List PiiEntity) :
    ∀ t, scrubGo repl t (l₁ ++ l₂) = scrubGo repl (scrubGo repl t l₁) l₂ := by
  induction l₁ with
  | nil => intro t; rfl
  | cons e fs ih => intro t; exact ih (splice t e (repl e))

theorem renderAsc_take (repl : PiiEntity → List Char) (t : List Char)
    (es : List PiiEntity) (k : ℕ)
    (h : ∀ f, es.head? = some f → k ≤ f.start ∧ f.start ≤ t.length) :
    (renderAsc repl t es).take k = t.take k := by
  match es with
  | [] => rfl
  | f :: fs =>
    obtain ⟨hk, hf⟩ := h f rfl
    show (t.take f.start ++ repl f ++ renderFrom repl f.endPos t fs).take k = t.take k
    rw [List.append_assoc, List.take_append_of_le_length, List.take_take]
    · rw [Nat.min_eq_left hk]
    · rw [List.length_take]
      omega

theorem renderAsc_drop (repl : PiiEntity → List Char) (t : List Char)
    (es : List PiiEntity) (k : ℕ)
    (h : ∀ f, es.head? = some f → k ≤ f.start ∧ f.start ≤ t.length) :
    (renderAsc repl t es).drop k = renderFrom repl k t es := by
  match es with
  | [] => rfl
  | f :: fs =>
    obtain ⟨hk, hf⟩ := h f rfl
    show (t.take f.start ++ repl f ++ renderFrom repl f.endPos t fs).drop k =
      (t.drop k).take (f.start - k) ++ repl f ++ renderFrom repl f.endPos t fs
    rw [List.append_assoc, List.drop_append_of_le_length, List.drop_take,
      ← List.append_assoc]
    rw [List.length_take]
    omega

theorem scrub_reverse_eq_render (repl : PiiEntity → List Char) (t : List Char) :
    ∀ es, List.Pairwise ordered es →
      (∀ e ∈ es, e.start < e.endPos ∧ e.endPos ≤ t.length) →
      scrubGo repl t es.reverse = renderAsc repl t es := by
  intro es
  induction es with
  | nil => intro _ _; rfl
  | cons e fs ih =>
    intro hord hb
    obtain ⟨hef, hford⟩ := List.pairwise_cons.mp hord
    have hIH := ih hford (fun x hx => hb x (List.mem_cons_of_mem e hx))
    rw [List.reverse_cons, scrubGo_append, hIH]
    have hhead : ∀ f, fs.head? = some f → e.endPos ≤ f.start ∧ f.start ≤ t.length := by
      intro f hf
      have hmem : f ∈ fs := by
        cases fs with
        | nil => cases hf
        | cons g gs => cases hf; simp
      have h1 := hef f hmem
      have h2 := hb f (List.mem_cons_of_mem e hmem)
      exact ⟨h1.1, by omega⟩
    have hheadS : ∀ f, fs.head? = some f → e.start ≤ f.start ∧ f.start ≤ t.length := by
      intro f hf
      have := hhead f hf
      have hbe := (hb e (by simp)).1
      exact ⟨by omega, this.2⟩
    show splice (renderAsc repl t fs) e (repl e) = renderAsc repl t (e :: fs)
    unfold splice
    rw [renderAsc_take repl t fs e.start hheadS, renderAsc_drop repl t fs e.endPos hhead]
    rfl

theorem entInsertDesc_append (e : PiiEntity) (m : List PiiEntity)
    (h : ∀ f ∈ m, ¬ f.start ≤ e.start) : entInsertDesc e m = m ++ [e] := by
  induction m with
  | nil => rfl
  | cons f fs ih =>
    unfold entInsertDesc
    rw [if_neg (h f (by simp))]
    rw [ih (fun x hx => h x (List.mem_cons_of_mem f hx))]
    rfl

theorem entSortDesc_of_strict (l : List PiiEntity)
    (h : List.Pairwise (fun a b => a.start < b.start) l) :
    entSortDesc l = l.reverse := by
  induction l with
  | nil => rfl
  | cons a t ih =>
    obtain ⟨ha, ht⟩ := List.pairwise_cons.mp h
    show entInsertDesc a (entSortDesc t) = (a :: t).reverse
    rw [ih ht, entInsertDesc_append, List.reverse_cons]
    intro f hf
    have := ha f (List.mem_reverse.mp hf)
    omega

/-- C10: for every text and every collection of raw regex matches whose
spans are nonempty and lie within the text, PiiScrubber.detect (the raw
matches filtered through removeOverlaps) yields spans that are pairwise
disjoint, in strictly increasing start order, within bounds; and scrub's
end-to-start splicing equals the direct rendering that keeps every character
outside the detected spans and substitutes each detected span by its
replacement token — in particular it is total and never throws. -/
theorem detect_scrub_spec (n : ℕ) (raw : List PiiEntity)
    (hraw : ∀ e ∈ raw, e.start < e.endPos ∧ e.endPos ≤ n) :
    List.Pairwise (fun a b => a.endPos ≤ b.start ∧ a.start < b.start) (detect raw) ∧
    (∀ e ∈ detect raw, e.start < e.endPos ∧ e.endPos ≤ n) ∧
    (∀ (t : List Char) (repl : PiiEntity → List Char), t.length = n →
      scrub t raw repl = renderAsc repl t (detect raw)) := by
  obtain ⟨hord, hmem⟩ := detect_ordered n raw hraw
  have hbounds : ∀ e ∈ detect raw, e.start < e.endPos ∧ e.endPos ≤ n :=
    fun e he => hraw e (hmem e he)
  refine ⟨hord, hbounds, ?_⟩
  intro t repl hlen
  unfold scrub
  by_cases htext : t = []
  · rw [if_pos htext]
    have hempty : detect raw = [] := by
      cases hd : detect raw with
      | nil => rfl
      | cons d ds =>
        exfalso
        have := hbounds d (by rw [hd]; simp)
        have : d.endPos ≤ n := this.2
        have : (0:ℕ) < n := by
          have := (hbounds d (by rw [hd]; simp)).1
          omega
        rw [htext] at hlen
        simp at hlen
        omega
    rw [hempty]
    rfl
  · rw [if_neg htext]
    by_cases hdet : detect raw = []
    · rw [if_pos hdet, hdet]
      rfl
    · rw [if_neg hdet]
      have hstrict : List.Pairwise (fun a b : PiiEntity => a.start < b.start) (detect raw) :=
        hord.imp (fun hab => hab.2)
      rw [entSortDesc_of_strict (detect raw) hstrict]
      exact scrub_reverse_eq_render repl t (detect raw) hord
        (fun e he => by rw [hlen]; exact hbounds e he)

instance : DecidableRel ordered := fun a b => by unfold ordered; infer_instance

def rawSample : List PiiEntity :=
  [⟨"EMAIL", "ab", 2, 4⟩, ⟨"PHONE", "bcd", 3, 7⟩, ⟨"SSN", "x", 8, 9⟩]

def sampleText : List Char := "hello world!".toList

def sampleRepl : PiiEntity → List Char := fun _ => ['X']

/-- Witness for detect_scrub_spec at a concrete overlapping match set on a
12-character text. -/
theorem detect_scrub_spec_witness :
    (∀ e ∈ rawSample, e.start < e.endPos ∧ e.endPos ≤ 12) ∧
    List.Pairwise (fun a b => a.endPos ≤ b.start ∧ a.start < b.start)
      (detect rawSample) ∧
    scrub sampleText rawSample sampleRepl =
      renderAsc sampleRepl sampleText (detect rawSample) :=
  ⟨by decide, (detect_scrub_spec 12 rawSample (by decide)).1,
    (detect_scrub_spec 12 rawSample (by decide)).2.2 sampleText sampleRepl (by decide)⟩

end Pii

/-! ## Detector: the pattern-detector edge function (temporal intent
clustering).  Timestamp buckets are carried as epoch milliseconds (the code
parses the ISO strings back through Date.getTime for comparisons).  The LLM
abstraction round trip is an oracle from the cluster index to the parsed
JSON fields (none models a thrown call, null content, a missing JSON object
or a parse failure — all of which make abstractCluster/serve skip the
cluster). -/

namespace Detector

structure SEvent where
  sessionFingerprint : String
  timestampBucket : ℤ
  intentVector : List ℚ
  structuralHash : String
  orgId : String
  eventType : String
  intentLabel : String
  intentConfidence : ℚ
  sequenceNumber : ℤ
  deriving DecidableEq, Repr, Inhabited

structure EventSeq where
  events : List SEvent
  embedding : List ℚ
  timestamp : ℤ
  deriving DecidableEq, Repr, Inhabited

structure Cluster where
  centroid : List ℚ
  members : List EventSeq
  intentLabels : List String
  deriving DecidableEq, Repr, Inhabited

/-- averageVectors: element-wise mean, missing entries read as 0. -/
def averageVectors (vectors : List (List ℚ)) : List ℚ :=
  match vectors with
  | [] => []
  | v0 :: _ =>
    (List.range v0.length).map
      (fun i => (vectors.map (fun v => v.getD i 0 / (vectors.length : ℚ))).sum)

/-- Stable ascending sort by sequenceNumber (the in-place Array.sort of the
session events). -/
def seqInsert (e : SEvent) : List SEvent → List SEvent
  | [] => [e]
  | f :: fs =>
    if e.sequenceNumber ≤ f.sequenceNumber then e :: f :: fs else f :: seqInsert e fs

def seqSort (l : List SEvent) : List SEvent := l.foldr seqInsert []

/-- Session keys in first-occurrence order (Map insertion order). -/
def sessionKeys (events : List SEvent) : List String :=
  GhostSpec.firstDedup (events.map (fun e => e.sessionFingerprint))

/-- extractSequences from pattern-detector: group by session, sort by
sequenceNumber, slide windows of up to windowSize starting at every index up
to max(0, len - 3), skipping windows shorter than 3. -/
def extractSequences (events : List SEvent) (windowSize : ℕ) : List EventSeq :=
  (sessionKeys events).flatMap (fun key =>
    let sorted := seqSort (events.filter (fun e => e.sessionFingerprint = key))
    (List.range (sorted.length - 3 + 1)).filterMap (fun i =>
      let window := (sorted.drop i).take windowSize
      if window.length < 3 then none
      else
        some { events := window
               embedding := averageVectors
                 ((window.map (fun e => e.intentVector)).filter (fun v => 0 < v.length))
               timestamp := (window.head?.map (fun e => e.timestampBucket)).getD 0 }))

/-- The loop accumulator of cosineSimilarity: sum over i < min(len a, len b)
of a[i]*b[i] (dot for distinct arguments, normA/normB squared for equal). -/
def dotOf (a b : List ℚ) : ℚ :=
  ((List.range (min a.length b.length)).map (fun i => a.getD i 0 * b.getD i 0)).sum

/-- cosineSimilarity from pattern-detector, over the reals because of the
square roots; zero-length vectors and zero denominators give 0. -/
noncomputable def cosineSimilarity (a b : List ℚ) : ℝ :=
  if a.length = 0 ∨ b.length = 0 then 0
  else if Real.sqrt ((dotOf a a : ℚ) : ℝ) * Real.sqrt ((dotOf b b : ℚ) : ℝ) = 0 then 0
  else ((dotOf a b : ℚ) : ℝ) /
    (Real.sqrt ((dotOf a a : ℚ) : ℝ) * Real.sqrt ((dotOf b b : ℚ) : ℝ))

/-- The clustering admission test similarity >= 0.75. -/
def simGE (a b : List ℚ) : Prop := (3 / 4 : ℝ) ≤ cosineSimilarity a b

theorem sumSq_getD_nonneg (a b : List ℚ) : 0 ≤ dotOf a a ∧ 0 ≤ dotOf b b := by
  constructor <;>
  · apply List.sum_nonneg
    intro x hx
    obtain ⟨i, _, rfl⟩ := List.mem_map.mp hx
    exact mul_self_nonneg _

/-- Rational decision criterion equivalent to simGE: nonzero lengths and
norms, nonnegative dot product, and 16 dot^2 at least 9 nA nB. -/
theorem simGE_iff (a b : List ℚ) :
    simGE a b ↔
      (¬ (a.length = 0 ∨ b.length = 0) ∧ ¬ (dotOf a a = 0 ∨ dotOf b b = 0) ∧
        0 ≤ dotOf a b ∧ 9 * (dotOf a a * dotOf b b) ≤ 16 * dotOf a b ^ 2) := by
  unfold simGE cosineSimilarity
  by_cases hlen : a.length = 0 ∨ b.length = 0
  · rw [if_pos hlen]
    simp only [hlen, not_true_eq_false, false_and, iff_false, not_le]
    norm_num
  · rw [if_neg hlen]
    have hnA : (0:ℚ) ≤ dotOf a a := (sumSq_getD_nonneg a b).1
    have hnB : (0:ℚ) ≤ dotOf b b := (sumSq_getD_nonneg a b).2
    by_cases hz : dotOf a a = 0 ∨ dotOf b b = 0
    · have hdz : Real.sqrt ((dotOf a a : ℚ) : ℝ) * Real.sqrt ((dotOf b b : ℚ) : ℝ) = 0 := by
        rcases hz with h | h <;> rw [h] <;> simp
      rw [if_pos hdz]
      simp only [hz, not_true_eq_false, false_and, and_false, iff_false, not_le]
      norm_num
    · push_neg at hz
      have hApos : (0:ℚ) < dotOf a a := lt_of_le_of_ne hnA (Ne.symm hz.1)
      have hBpos : (0:ℚ) < dotOf b b := lt_of_le_of_ne hnB (Ne.symm hz.2)
      have hsqA : (0:ℝ) < Real.sqrt ((dotOf a a : ℚ) : ℝ) :=
        Real.sqrt_pos.mpr (by exact_mod_cast hApos)
      have hsqB : (0:ℝ) < Real.sqrt ((dotOf b b : ℚ) : ℝ) :=
        Real.sqrt_pos.mpr (by exact_mod_cast hBpos)
      have hd : (0:ℝ) < Real.sqrt ((dotOf a a : ℚ) : ℝ) * Real.sqrt ((dotOf b b : ℚ) : ℝ) :=
        mul_pos hsqA hsqB
      rw [if_neg (ne_of_gt hd)]
      rw [le_div_iff₀ hd]
      have hdsq : (Real.sqrt ((dotOf a a : ℚ) : ℝ) * Real.sqrt ((dotOf b b : ℚ) : ℝ)) ^ 2 =
          ((dotOf a a : ℚ) : ℝ) * ((dotOf b b : ℚ) : ℝ) := by
        rw [mul_pow, Real.sq_sqrt (by exact_mod_cast hnA), Real.sq_sqrt (by exact_mod_cast hnB)]
      constructor
      · intro h
        have hdotpos : (0:ℝ) ≤ ((dotOf a b : ℚ) : ℝ) := le_trans (by positivity) h
        refine ⟨fun hcon => hlen hcon, fun hcon => absurd hcon (by push_neg; exact hz), ?_, ?_⟩
        · exact_mod_cast hdotpos
        · have hsq : (3 / 4 * (Real.sqrt ((dotOf a a : ℚ) : ℝ) *
              Real.sqrt ((dotOf b b : ℚ) : ℝ))) ^ 2 ≤ ((dotOf a b : ℚ) : ℝ) ^ 2 := by
            apply pow_le_pow_left₀ (by positivity) h
          rw [mul_pow, hdsq] at hsq
          have : (9:ℝ) * (((dotOf a a : ℚ) : ℝ) * ((dotOf b b : ℚ) : ℝ)) ≤
              16 * ((dotOf a b : ℚ) : ℝ) ^ 2 := by nlinarith
          exact_mod_cast this
      · rintro ⟨-, -, hdot, hineq⟩
        have hdotR : (0:ℝ) ≤ ((dotOf a b : ℚ) : ℝ) := by exact_mod_cast hdot
        have hineqR : (9:ℝ) * (((dotOf a a : ℚ) : ℝ) * ((dotOf b b : ℚ) : ℝ)) ≤
            16 * ((dotOf a b : ℚ) : ℝ) ^ 2 := by exact_mod_cast hineq
        nlinarith [hdsq, hd, Real.sqrt_nonneg ((dotOf a a : ℚ) : ℝ),
          Real.sqrt_nonneg ((dotOf b b : ℚ) : ℝ)]

instance simGE_decidable (a b : List ℚ) : Decidable (simGE a b) :=
  decidable_of_iff _ (simGE_iff a b).symm

end Detector

namespace Detector

/-- One outer iteration of clusterSequences: seed an unassigned sequence i,
sweep j > i not yet assigned, admitting on similarity >= 0.75 and
|timestamp difference| <= 30 minutes; the centroid is recomputed from all
members after the sweep, and intentLabels accumulate each member's event
labels in admission order. -/
def clusterStep (seqs : List EventSeq) (st : List ℕ × List Cluster) (i : ℕ) :
    List ℕ × List Cluster :=
  if i ∈ st.1 then st
  else
    let si := seqs.getD i default
    let js := (List.range seqs.length).filter (fun j =>
      decide (i < j ∧ j ∉ st.1 ∧ simGE si.embedding (seqs.getD j default).embedding ∧
        (si.timestamp - (seqs.getD j default).timestamp).natAbs ≤ 1800000))
    let members := si :: js.map (fun j => seqs.getD j default)
    let cluster : Cluster :=
      { centroid := averageVectors (members.map (fun m => m.embedding))
        members := members
        intentLabels := members.flatMap (fun m => m.events.map (fun e => e.intentLabel)) }
    (st.1 ++ i :: js, st.2 ++ [cluster])

def clusterSequences (seqs : List EventSeq) : List Cluster :=
  if seqs.length = 0 then []
  else ((List.range seqs.length).foldl (clusterStep seqs) ([], [])).2

/-- computeStatisticalConfidence: occurrence, consistency and average intent
confidence factors, weighted 0.3 / 0.4 / 0.3. -/
def computeStatisticalConfidence (cluster : Cluster) : ℚ :=
  let n := cluster.members.length
  if n < 3 then 0
  else
    let occurrenceScore : ℚ := if (n : ℚ) / 10 ≤ 1 then (n : ℚ) / 10 else 1
    let intentSets := cluster.members.map
      (fun m => String.intercalate "," (m.events.map (fun e => e.intentLabel)))
    let uniquePatterns := (GhostSpec.firstDedup intentSets).length
    let consistencyScore : ℚ := 1 - ((uniquePatterns : ℚ) - 1) / ((max n 1 : ℕ) : ℚ)
    let avgConfidence : ℚ :=
      (cluster.members.flatMap (fun m => m.events.map (fun e => e.intentConfidence))).sum /
        ((cluster.members.flatMap (fun m => m.events)).length : ℚ)
    occurrenceScore * (3 / 10) + consistencyScore * (4 / 10) + avgConfidence * (3 / 10)

/-- The fields the detector reads out of the JSON object parsed from the LLM
reply (absent fields are none; JS `x || d` falsy defaulting applies). -/
structure LLMParsed where
  name : Option String
  description : Option String
  confidence : Option ℚ
  deriving DecidableEq, Repr

/-- `parsed.confidence || 0.5`: undefined and 0 both fall back. -/
def jsOrQ (o : Option ℚ) (d : ℚ) : ℚ :=
  match o with
  | none => d
  | some c => if c = 0 then d else c

structure DetectedPattern where
  orgId : String
  intentSequence : List String
  structuralHashes : List String
  occurrences : ℕ
  confidence : ℚ
  suggestedName : String
  suggestedDescription : String
  firstSeen : ℤ
  lastSeen : ℤ
  deriving DecidableEq, Repr

/-- abstractCluster: parsed = none models every skipping outcome of the LLM
round trip (thrown call, null content, no JSON object in the reply, JSON.parse
failure); otherwise the pattern is assembled with combined confidence
0.6 * statistical + 0.4 * semantic rounded to 2 decimals, firstSeen taken
from the LAST member and lastSeen from the FIRST member (now is the
new Date() fallback for an empty member list). -/
def abstractCluster (cluster : Cluster) (parsed : Option LLMParsed)
    (orgId : String) (now : ℤ) : Option DetectedPattern :=
  match parsed with
  | none => none
  | some pr =>
    let statisticalConfidence := computeStatisticalConfidence cluster
    let semanticConfidence := jsOrQ pr.confidence (1 / 2)
    let combinedConfidence :=
      statisticalConfidence * (6 / 10) + semanticConfidence * (4 / 10)
    some
      { orgId := orgId
        intentSequence := GhostSpec.firstDedup
          (cluster.members.flatMap (fun m => m.events.map (fun e => e.intentLabel)))
        structuralHashes := GhostSpec.firstDedup
          (cluster.members.flatMap (fun m => m.events.map (fun e => e.structuralHash)))
        occurrences := cluster.members.length
        confidence := GhostSpec.round2 combinedConfidence
        suggestedName := GhostSpec.jsOrStr pr.name "Unnamed Pattern"
        suggestedDescription := GhostSpec.jsOrStr pr.description ""
        firstSeen := match cluster.members.getLast? with
          | some m => m.timestamp
          | none => now
        lastSeen := match cluster.members.head? with
          | some m => m.timestamp
          | none => now }

/-- The pattern-detector serve body after fetching events: fewer than 3
events returns no patterns; otherwise extract windows of size 50, cluster,
keep clusters of at least 3 members, abstract the first 5 (the llm oracle is
indexed by position; a none outcome or a thrown abstraction is skipped),
keep patterns with confidence >= 0.70 and attach the upserted status:
auto_suggested when confidence >= 0.85, else needs_review. -/
def detectPatterns (events : List SEvent) (llm : ℕ → Option LLMParsed)
    (orgId : String) (now : ℤ) : List (DetectedPattern × String) :=
  if events.length < 3 then []
  else
    let sequences := extractSequences events 50
    let clusters := clusterSequences sequences
    let validClusters := clusters.filter (fun c => 3 ≤ c.members.length)
    ((validClusters.take 5).enum).filterMap (fun p =>
      match abstractCluster p.2 (llm p.1) orgId now with
      | some pattern =>
        if (7 / 10 : ℚ) ≤ pattern.confidence then
          some (pattern,
            if (17 / 20 : ℚ) ≤ pattern.confidence then "auto_suggested"
            else "needs_review")
        else none
      | none => none)

end Detector

namespace Detector

/-- A concrete five-event session: one fingerprint, sequence numbers 1..5,
bucket timestamps one minute apart, constant one-dimensional intent vector. -/
def mkEv (seq : ℤ) (ts : ℤ) : SEvent :=
  { sessionFingerprint := "s", timestampBucket := ts, intentVector := [1],
    structuralHash := "h1", orgId := "o1", eventType := "user_int",
    intentLabel := "navigation", intentConfidence := 1, sequenceNumber := seq }

def evs6 : List SEvent := [mkEv 1 0, mkEv 2 60000, mkEv 3 120000, mkEv 4 180000, mkEv 5 240000]

def llm6 : ℕ → Option LLMParsed := fun _ => some ⟨some "Invoice Flow", some "desc", some 1⟩

theorem mem_of_mem_enumFrom {α : Type} :
    ∀ (l : List α) (n : ℕ) (p : ℕ × α), p ∈ l.enumFrom n → p.2 ∈ l := by
  intro l
  induction l with
  | nil => intro n p hp; simp [List.enumFrom] at hp
  | cons a t ih =>
    intro n p hp
    simp only [List.enumFrom, List.mem_cons] at hp
    rcases hp with rfl | hp
    · simp
    · exact List.mem_cons_of_mem _ (ih _ _ hp)

/-- C6 (counterexample): a single session of five one-minute-spaced events
makes the detector emit exactly one pattern, and that pattern has
firstSeen = 120000 ms and lastSeen = 0 ms — firstSeen comes from the LAST
member window (the latest-starting one) and lastSeen from the FIRST, so
firstSeen is not the minimum member timestamp and firstSeen ≤ lastSeen
fails. -/
theorem firstSeen_counterexample :
    (detectPatterns evs6 llm6 "o1" 999).map (fun p => (p.1.firstSeen, p.1.lastSeen)) =
      [(120000, 0)] ∧
    ¬ ∀ q ∈ detectPatterns evs6 llm6 "o1" 999, q.1.firstSeen ≤ q.1.lastSeen := by
  decide

/-- C6: whenever abstractCluster emits a pattern, firstSeen is the timestamp
of the cluster's LAST member and lastSeen that of its FIRST member (with the
current time as fallback for an empty member list) — not the minimum and
maximum of the member timestamps. -/
theorem abstract_first_last (cluster : Cluster) (parsed : Option LLMParsed)
    (orgId : String) (now : ℤ) (p : DetectedPattern)
    (h : abstractCluster cluster parsed orgId now = some p) :
    p.firstSeen = (match cluster.members.getLast? with
      | some m => m.timestamp
      | none => now) ∧
    p.lastSeen = (match cluster.members.head? with
      | some m => m.timestamp
      | none => now) := by
  match parsed with
  | none => simp [abstractCluster] at h
  | some pr =>
    simp only [abstractCluster, Option.some.injEq] at h
    subst h
    exact ⟨rfl, rfl⟩

def seqW (ts : ℤ) (es : List SEvent) : EventSeq :=
  { events := es, embedding := [1], timestamp := ts }

def clusterW : Cluster :=
  { centroid := [1], members := [seqW 0 [mkEv 1 0], seqW 120000 [mkEv 3 120000]],
    intentLabels := ["navigation"] }

def patW6 : DetectedPattern :=
  { orgId := "o1", intentSequence := ["navigation"], structuralHashes := ["h1"],
    occurrences := 2, confidence := 9/25, suggestedName := "n",
    suggestedDescription := "d", firstSeen := 120000, lastSeen := 0 }

theorem abstract_first_last_witness :
    patW6.firstSeen = (match clusterW.members.getLast? with
      | some m => m.timestamp
      | none => (999:ℤ)) ∧
    patW6.lastSeen = (match clusterW.members.head? with
      | some m => m.timestamp
      | none => (999:ℤ)) :=
  abstract_first_last clusterW (some ⟨some "n", some "d", some (9/10)⟩) "o1" 999
    patW6 (by decide)

/-- C7: every pattern the detector emits (and upserts) has at least 3
occurrences, combined confidence (rounded to 2 decimals) at least 0.70, and
its stored status is auto_suggested exactly when that confidence is at
least 0.85, and needs_review otherwise. -/
theorem clustering_gates (events : List SEvent) (llm : ℕ → Option LLMParsed)
    (orgId : String) (now : ℤ) (p : DetectedPattern × String)
    (hp : p ∈ detectPatterns events llm orgId now) :
    3 ≤ p.1.occurrences ∧ (7/10 : ℚ) ≤ p.1.confidence ∧
      (p.2 = "auto_suggested" ↔ (17/20 : ℚ) ≤ p.1.confidence) ∧
      (p.2 = "auto_suggested" ∨ p.2 = "needs_review") := by
  unfold detectPatterns at hp
  by_cases hlen : events.length < 3
  · rw [if_pos hlen] at hp
    simp at hp
  · rw [if_neg hlen] at hp
    rw [List.mem_filterMap] at hp
    obtain ⟨⟨i, c⟩, hmem, heq⟩ := hp
    have hc3 : 3 ≤ c.members.length := by
      have h1 : c ∈ (clusterSequences (extractSequences events 50)).filter
          (fun c => 3 ≤ c.members.length) := by
        have h2 := mem_of_mem_enumFrom _ 0 (i, c) hmem
        exact List.mem_of_mem_take h2
      have := (List.mem_filter.mp h1).2
      exact of_decide_eq_true this
    rcases habs : abstractCluster c (llm i) orgId now with _ | pattern
    · rw [habs] at heq
      simp at heq
    · rw [habs] at heq
      have heq2 : (if (7/10 : ℚ) ≤ pattern.confidence then
          some (pattern, if (17/20 : ℚ) ≤ pattern.confidence then "auto_suggested"
            else "needs_review") else none) = some p := heq
      by_cases hconf : (7/10 : ℚ) ≤ pattern.confidence
      · rw [if_pos hconf] at heq2
        have hocc : pattern.occurrences = c.members.length := by
          rcases hllm : llm i with _ | pr
          · rw [hllm] at habs; simp [abstractCluster] at habs
          · rw [hllm] at habs
            simp only [abstractCluster, Option.some.injEq] at habs
            rw [← habs]
        cases Option.some.inj heq2
        refine ⟨by rw [hocc]; exact hc3, hconf, ?_, ?_⟩
        · by_cases h85 : (17/20 : ℚ) ≤ pattern.confidence
          · rw [if_pos h85]
            exact ⟨fun _ => h85, fun _ => rfl⟩
          · rw [if_neg h85]
            constructor
            · intro hcon
              simp at hcon
            · intro hcon
              exact absurd hcon h85
        · by_cases h85 : (17/20 : ℚ) ≤ pattern.confidence
          · rw [if_pos h85]; left; rfl
          · rw [if_neg h85]; right; rfl
      · rw [if_neg hconf] at heq2
        simp at heq2

def patW7 : DetectedPattern :=
  { orgId := "o1", intentSequence := ["navigation"], structuralHashes := ["h1"],
    occurrences := 3, confidence := 71/100, suggestedName := "Invoice Flow",
    suggestedDescription := "desc", firstSeen := 120000, lastSeen := 0 }

theorem clustering_gates_witness :
    3 ≤ patW7.occurrences ∧ (7/10 : ℚ) ≤ patW7.confidence ∧
      ("needs_review" = "auto_suggested" ↔ (17/20 : ℚ) ≤ patW7.confidence) ∧
      ("needs_review" = "auto_suggested" ∨ "needs_review" = "needs_review") :=
  clustering_gates evs6 llm6 "o1" 999 (patW7, "needs_review") (by decide)

end Detector
